import Mathlib

/-!
Verification of the Business Ops MCP server (`mcp_server.py`) against its
natural-language specification.

The embedding models JSON values (`JVal`) as they appear after `json.load` /
`json.loads`: numbers are exact rationals (Python float arithmetic is modelled
as exact rational arithmetic; every numeric literal a JSON file can contain is
a finite decimal and hence a rational).  Python dicts are association lists
with unique keys; `dict.get`-style access is `findKey`.  Fallible Python code
(key access on records, attribute errors) is modelled with `Except String`,
and the dispatcher `handle_tool_call` converts any such error into the
`{"error": ...}` envelope exactly as the `try/except` in the source does.
-/

/-- A JSON value, the result of `json.load`/`json.loads` in the source.
Objects keep insertion order, as Python dicts do. -/
inductive JVal where
  | null
  | bool (b : Bool)
  | num (q : Rat)
  | str (s : String)
  | arr (elems : List JVal)
  | obj (fields : List (String × JVal))

namespace JVal

/- Decidable equality on `JVal` (the derive handler does not support this
nested inductive, so it is written out). -/
mutual

def decEqV : (a b : JVal) → Decidable (a = b)
  | .null, .null => isTrue rfl
  | .null, .bool _ => isFalse nofun
  | .null, .num _ => isFalse nofun
  | .null, .str _ => isFalse nofun
  | .null, .arr _ => isFalse nofun
  | .null, .obj _ => isFalse nofun
  | .bool _, .null => isFalse nofun
  | .bool a, .bool b =>
    match decEq a b with
    | isTrue h => isTrue (h ▸ rfl)
    | isFalse h => isFalse (fun hh => by cases hh; exact h rfl)
  | .bool _, .num _ => isFalse nofun
  | .bool _, .str _ => isFalse nofun
  | .bool _, .arr _ => isFalse nofun
  | .bool _, .obj _ => isFalse nofun
  | .num _, .null => isFalse nofun
  | .num _, .bool _ => isFalse nofun
  | .num a, .num b =>
    match decEq a b with
    | isTrue h => isTrue (h ▸ rfl)
    | isFalse h => isFalse (fun hh => by cases hh; exact h rfl)
  | .num _, .str _ => isFalse nofun
  | .num _, .arr _ => isFalse nofun
  | .num _, .obj _ => isFalse nofun
  | .str _, .null => isFalse nofun
  | .str _, .bool _ => isFalse nofun
  | .str _, .num _ => isFalse nofun
  | .str a, .str b =>
    match decEq a b with
    | isTrue h => isTrue (h ▸ rfl)
    | isFalse h => isFalse (fun hh => by cases hh; exact h rfl)
  | .str _, .arr _ => isFalse nofun
  | .str _, .obj _ => isFalse nofun
  | .arr _, .null => isFalse nofun
  | .arr _, .bool _ => isFalse nofun
  | .arr _, .num _ => isFalse nofun
  | .arr _, .str _ => isFalse nofun
  | .arr a, .arr b =>
    match decEqL a b with
    | isTrue h => isTrue (h ▸ rfl)
    | isFalse h => isFalse (fun hh => by cases hh; exact h rfl)
  | .arr _, .obj _ => isFalse nofun
  | .obj _, .null => isFalse nofun
  | .obj _, .bool _ => isFalse nofun
  | .obj _, .num _ => isFalse nofun
  | .obj _, .str _ => isFalse nofun
  | .obj _, .arr _ => isFalse nofun
  | .obj a, .obj b =>
    match decEqFL a b with
    | isTrue h => isTrue (h ▸ rfl)
    | isFalse h => isFalse (fun hh => by cases hh; exact h rfl)

def decEqL : (a b : List JVal) → Decidable (a = b)
  | [], [] => isTrue rfl
  | [], _ :: _ => isFalse nofun
  | _ :: _, [] => isFalse nofun
  | x :: xs, y :: ys =>
    match decEqV x y with
    | isFalse h => isFalse (fun hh => by cases hh; exact h rfl)
    | isTrue h1 =>
      match decEqL xs ys with
      | isTrue h2 => isTrue (h1 ▸ h2 ▸ rfl)
      | isFalse h2 => isFalse (fun hh => by cases hh; exact h2 rfl)

def decEqFL : (a b : List (String × JVal)) → Decidable (a = b)
  | [], [] => isTrue rfl
  | [], _ :: _ => isFalse nofun
  | _ :: _, [] => isFalse nofun
  | (k1, v1) :: xs, (k2, v2) :: ys =>
    match decEq k1 k2 with
    | isFalse h => isFalse (fun hh => by cases hh; exact h rfl)
    | isTrue hk =>
      match decEqV v1 v2 with
      | isFalse h => isFalse (fun hh => by cases hh; exact h rfl)
      | isTrue hv =>
        match decEqFL xs ys with
        | isTrue ht => isTrue (hk ▸ hv ▸ ht ▸ rfl)
        | isFalse ht => isFalse (fun hh => by cases hh; exact ht rfl)

end

instance : DecidableEq JVal := decEqV

end JVal

/-- First-match lookup in an association list; models `d[k]` / `d.get(k)`
presence on a Python dict (whose keys are unique). -/
def findKey : List (String × JVal) → String → Option JVal
  | [], _ => none
  | (k', v) :: rest, k => if k' = k then some v else findKey rest k

/-- Python truthiness (`if x:`) for the values that can reach such a test:
`None`, booleans, numbers, strings, lists and dicts. -/
def pyTruthy : JVal → Bool
  | .null => false
  | .bool b => b
  | .num q => q.num ≠ 0
  | .str s => s ≠ ""
  | .arr xs => !xs.isEmpty
  | .obj fs => !fs.isEmpty

/-! ### Decimal digits and number rendering -/

/-- The character of a single decimal digit. -/
def digitChar : Nat → Char
  | 0 => '0' | 1 => '1' | 2 => '2' | 3 => '3' | 4 => '4'
  | 5 => '5' | 6 => '6' | 7 => '7' | 8 => '8' | _ => '9'

/-- Numeric value of a digit character. -/
def digitVal (c : Char) : Nat := c.toNat - 48

/-- Recognise a decimal digit character. -/
def isDigitC (c : Char) : Bool := 48 ≤ c.toNat && c.toNat ≤ 57

/-- Fuelled digit-string worker (structural recursion keeps it
kernel-computable; `natChars` supplies ample fuel). -/
def natCharsAux (fuel : Nat) (n : Nat) : List Char :=
  match fuel with
  | 0 => []
  | fuel + 1 =>
    if n < 10 then [digitChar n]
    else natCharsAux fuel (n / 10) ++ [digitChar (n % 10)]

/-- Decimal digit string of a natural number, most significant digit first. -/
def natChars (n : Nat) : List Char := natCharsAux (n + 1) n

/-- Decimal digit string of an integer (with a leading minus sign). -/
def intChars (i : Int) : List Char :=
  if i < 0 then '-' :: natChars i.natAbs else natChars i.natAbs

/-- Fixed scaling factor used to render non-integral numbers: Python renders a
float with up to 17 significant decimal digits, modelled here as a fixed-point
rendering with 17 fractional digits. -/
def E17 : Nat := 10 ^ 17

/-- Render a rational the way the embedded `json.dumps` / `str()` renders the
corresponding Python number: integers as plain digit strings, non-integers in
fixed-point with 17 fractional digits (exact whenever the denominator divides
`E17`, which covers every value the round-trip theorem quantifies over). -/
def numChars (q : Rat) : List Char :=
  if q.den = 1 then intChars q.num
  else
    let n : Nat := q.num.natAbs * E17 / q.den
    let ip := n / E17
    let fp := n % E17
    let fracDigits := List.replicate (17 - (natChars fp).length) '0' ++ natChars fp
    (if q.num < 0 then ['-'] else []) ++ natChars ip ++ ['.'] ++ fracDigits

/-- Python `str()` as used inside the f-string summaries.  The rendering of
lists and dicts is abbreviated: such values can only reach a summary string,
whose exact text no claim inspects beyond non-emptiness. -/
def pyStr : JVal → String
  | .null => "None"
  | .bool b => if b then "True" else "False"
  | .num q => String.mk (numChars q)
  | .str s => s
  | .arr _ => "[list]"
  | .obj _ => "[dict]"

/-! ### Kernel-computable rational arithmetic

`Rat.add` / `Rat.div` do not reduce inside the kernel, so the embedding
computes with `Rat.divInt`-based wrappers, proved equal to the ordinary
field operations. -/

/-- Rational addition via `Rat.divInt` (kernel-computable). -/
def qadd (a b : Rat) : Rat := Rat.divInt (a.num * b.den + b.num * a.den) (a.den * b.den)

/-- Rational division via `Rat.divInt` (kernel-computable).  Python raises
`ZeroDivisionError` on a zero divisor; every division in the source is guarded
by a non-emptiness test, so the two agree on all reachable inputs. -/
def qdiv (a b : Rat) : Rat := Rat.divInt (a.num * b.den) (a.den * b.num)

theorem qadd_eq (a b : Rat) : qadd a b = a + b := by
  rw [qadd]
  conv_rhs => rw [← Rat.num_divInt_den a, ← Rat.num_divInt_den b]
  rw [Rat.divInt_add_divInt _ _ (by exact_mod_cast a.den_nz) (by exact_mod_cast b.den_nz)]

theorem qdiv_eq (a b : Rat) : qdiv a b = a / b := (Rat.div_def' a b).symm

/-- Sum of a list of rationals, via `qadd`, folding left like Python `sum`. -/
def qsum (l : List Rat) : Rat := l.foldl qadd 0

theorem qsum_eq (l : List Rat) : qsum l = l.sum := by
  have h : ∀ (acc : Rat), l.foldl qadd acc = acc + l.sum := by
    induction l with
    | nil => intro acc; simp [List.sum_nil]
    | cons x xs ih =>
      intro acc
      simp only [List.foldl_cons, List.sum_cons, ih, qadd_eq]
      ring
  simpa using h 0

/-- Cast of a natural number (a Python `len(...)`) into the rational number
model, kernel-computable. -/
def qnat (n : Nat) : Rat := Rat.divInt n 1

theorem qnat_eq (n : Nat) : qnat n = (n : Rat) := by
  simp [qnat]

/-- Rational multiplication via `Rat.divInt` (kernel-computable); only used in
summary-string formatting. -/
def qmul (a b : Rat) : Rat := Rat.divInt (a.num * b.num) (a.den * b.den)

/-- Decidable equality for `Except` outcomes (used to evaluate executor runs
on concrete datasets). -/
instance {ε α : Type} [DecidableEq ε] [DecidableEq α] : DecidableEq (Except ε α) :=
  fun a b =>
    match a, b with
    | .ok x, .ok y =>
      match decEq x y with
      | isTrue h => isTrue (h ▸ rfl)
      | isFalse h => isFalse (fun hh => by cases hh; exact h rfl)
    | .error x, .error y =>
      match decEq x y with
      | isTrue h => isTrue (h ▸ rfl)
      | isFalse h => isFalse (fun hh => by cases hh; exact h rfl)
    | .ok _, .error _ => isFalse nofun
    | .error _, .ok _ => isFalse nofun

/-! ### Data model: records, datasets, `load_data` -/

/-- One JSON record (a Python dict with string keys). -/
abbrev Record := List (String × JVal)

/-- The state of the `data/` directory: for each file name, the record list
`json.load` would produce, or `none` when `open`/`json.load` raises (missing
or malformed file). -/
abbrev FileSystem := String → Option (List Record)

/-- `BusinessMCPServer.load_data`: returns the parsed file, or `[]` when the
`try/except` catches a loading error (missing or malformed file). -/
def load_data (fs : FileSystem) (file_name : String) : List Record :=
  match fs file_name with
  | some records => records
  | none => []

/-! ### Python record access and comprehension combinators -/

/-- `r[k]` on a record: `KeyError` when the field is absent.  (Python renders
`str(KeyError(k))` with quotation marks around the key; the marks are omitted
from the modelled message text.) -/
def getKey (r : Record) (k : String) : Except String JVal :=
  match findKey r k with
  | some v => .ok v
  | none => .error ("KeyError: " ++ k)

/-- `[r for r in rs if r[k] == v]` — faults on the first record lacking `k`. -/
def selectEq (rs : List Record) (k : String) (v : JVal) : Except String (List Record) :=
  match rs with
  | [] => .ok []
  | r :: rest =>
    match getKey r k with
    | .error e => .error e
    | .ok x =>
      match selectEq rest k v with
      | .error e => .error e
      | .ok tail => .ok (if x = v then r :: tail else tail)

/-- `[r for r in rs if r[k] != v]` — faults on the first record lacking `k`. -/
def selectNe (rs : List Record) (k : String) (v : JVal) : Except String (List Record) :=
  match rs with
  | [] => .ok []
  | r :: rest =>
    match getKey r k with
    | .error e => .error e
    | .ok x =>
      match selectNe rest k v with
      | .error e => .error e
      | .ok tail => .ok (if x ≠ v then r :: tail else tail)

/-- The numeric values `r[k]` of every record, as consumed by Python `sum`:
`KeyError` on a missing field, `TypeError` on a non-numeric one. -/
def getNums (rs : List Record) (k : String) : Except String (List Rat) :=
  match rs with
  | [] => .ok []
  | r :: rest =>
    match getKey r k with
    | .error e => .error e
    | .ok (.num q) =>
      match getNums rest k with
      | .error e => .error e
      | .ok tail => .ok (q :: tail)
    | .ok _ => .error ("TypeError: unsupported operand type in sum of " ++ k)

/-- `sum(r[k] for r in rs)`. -/
def sumKey (rs : List Record) (k : String) : Except String Rat :=
  match getNums rs k with
  | .error e => .error e
  | .ok l => .ok (qsum l)

/-- `sum(r[k] for r in rs if r[ck] == cv)`. -/
def sumKeyWhere (rs : List Record) (k ck : String) (cv : JVal) : Except String Rat :=
  match selectEq rs ck cv with
  | .error e => .error e
  | .ok sel => sumKey sel k

/-- Python dict keys must be hashable: lists and dicts raise `TypeError`. -/
def hashableKey : JVal → Bool
  | .arr _ => false
  | .obj _ => false
  | _ => true

/-- `tbl[key] = tbl.get(key, 0) + 1` on an insertion-ordered dict. -/
def freqBump (tbl : List (JVal × Nat)) (k : JVal) : List (JVal × Nat) :=
  match tbl with
  | [] => [(k, 1)]
  | (k', c) :: rest => if k' = k then (k', c + 1) :: rest else (k', c) :: freqBump rest k

/-- The `by_status`-style frequency loop over one field. -/
def freqOf (rs : List Record) (k : String) (tbl : List (JVal × Nat)) :
    Except String (List (JVal × Nat)) :=
  match rs with
  | [] => .ok tbl
  | r :: rest =>
    match getKey r k with
    | .error e => .error e
    | .ok v =>
      if hashableKey v then freqOf rest k (freqBump tbl v)
      else .error "TypeError: unhashable type"

/-- The combined per-ticket loop of `get_open_tickets`, bumping the
`by_status` and `by_priority` tables in one pass, in source order. -/
def ticketFreqs (rs : List Record) (bs bp : List (JVal × Nat)) :
    Except String (List (JVal × Nat) × List (JVal × Nat)) :=
  match rs with
  | [] => .ok (bs, bp)
  | t :: rest =>
    match getKey t "status" with
    | .error e => .error e
    | .ok sv =>
      if hashableKey sv then
        match getKey t "priority" with
        | .error e => .error e
        | .ok pv =>
          if hashableKey pv then ticketFreqs rest (freqBump bs sv) (freqBump bp pv)
          else .error "TypeError: unhashable type"
      else .error "TypeError: unhashable type"

/-- `json.dumps` string form of a non-string dict key (`5` → `"5"`,
`True` → `"true"`, `None` → `"null"`); unhashable keys never reach this. -/
def jsonKeyStr : JVal → String
  | .str s => s
  | .num q => String.mk (numChars q)
  | .bool b => if b then "true" else "false"
  | .null => "null"
  | .arr _ => ""
  | .obj _ => ""

/-- A frequency table as the JSON object the response serialises it to. -/
def freqObj (tbl : List (JVal × Nat)) : JVal :=
  .obj (tbl.map (fun p => (jsonKeyStr p.1, .num (qnat p.2))))

/-- `{:.1%}` percent formatting, modelled without the one-decimal rounding
(the text is only ever inspected for non-emptiness). -/
def pyPercent (q : Rat) : String := String.mk (numChars (qmul q (qnat 100))) ++ "%"

/-! ### The five tool executors -/

/-- `BusinessMCPServer.get_revenue_summary`. -/
def get_revenue_summary (fs : FileSystem) : Except String JVal :=
  let sales_data := load_data fs "sales.json"
  match selectEq sales_data "status" (.str "Closed Won") with
  | .error e => .error e
  | .ok closed_won =>
  match selectEq sales_data "status" (.str "In Progress") with
  | .error e => .error e
  | .ok in_progress =>
  match selectEq sales_data "status" (.str "Lost") with
  | .error e => .error e
  | .ok lost =>
  match sumKey closed_won "amount" with
  | .error e => .error e
  | .ok total_revenue =>
  match sumKey in_progress "amount" with
  | .error e => .error e
  | .ok potential_revenue =>
  let win_rate : Rat :=
    if sales_data.isEmpty then 0 else qdiv (qnat closed_won.length) (qnat sales_data.length)
  .ok (.obj [
    ("total_closed_revenue", .num total_revenue),
    ("potential_revenue", .num potential_revenue),
    ("closed_deals", .num (qnat closed_won.length)),
    ("deals_in_progress", .num (qnat in_progress.length)),
    ("lost_deals", .num (qnat lost.length)),
    ("win_rate", .num win_rate),
    ("summary", .str ("✅ Total Closed Revenue: $" ++ String.mk (numChars total_revenue)
      ++ " | 📊 " ++ String.mk (natChars closed_won.length)
      ++ " closed deals (" ++ pyPercent win_rate ++ " win rate)"))])

/-- The four-field projection `get_top_performers` builds per performer. -/
def projPerformer (r : Record) : Except String JVal :=
  match getKey r "name" with
  | .error e => .error e
  | .ok nv =>
  match getKey r "department" with
  | .error e => .error e
  | .ok dv =>
  match getKey r "salary" with
  | .error e => .error e
  | .ok sv =>
  match getKey r "performance" with
  | .error e => .error e
  | .ok pv =>
  .ok (.obj [("name", nv), ("department", dv), ("salary", sv), ("performance", pv)])

/-- The `performer_list` comprehension. -/
def projAll (rs : List Record) : Except String (List JVal) :=
  match rs with
  | [] => .ok []
  | r :: rest =>
    match projPerformer r with
    | .error e => .error e
    | .ok v =>
      match projAll rest with
      | .error e => .error e
      | .ok tail => .ok (v :: tail)

/-- The names fed to `", ".join(...)`, which requires every item to be a
string (`TypeError` otherwise). -/
def namesOf (rs : List Record) : Except String (List String) :=
  match rs with
  | [] => .ok []
  | r :: rest =>
    match getKey r "name" with
    | .error e => .error e
    | .ok (.str s) =>
      match namesOf rest with
      | .error e => .error e
      | .ok tail => .ok (s :: tail)
    | .ok _ => .error "TypeError: sequence item expected str instance"

/-- `BusinessMCPServer.get_top_performers`.  `department` is the raw argument
value (`None` when absent); `if department:` is Python truthiness. -/
def get_top_performers (fs : FileSystem) (department : JVal) : Except String JVal :=
  let hr_data := load_data fs "hr.json"
  match selectEq hr_data "performance" (.str "Excellent") with
  | .error e => .error e
  | .ok performers0 =>
  match (if pyTruthy department then selectEq performers0 "department" department
         else .ok performers0) with
  | .error e => .error e
  | .ok performers =>
  match projAll performers with
  | .error e => .error e
  | .ok performer_list =>
  if pyTruthy department then
    match namesOf performers with
    | .error e => .error e
    | .ok names =>
      .ok (.obj [
        ("top_performers", .arr performer_list),
        ("count", .num (qnat performers.length)),
        ("summary", .str ("🏆 Top performers in " ++ pyStr department ++ ": "
          ++ String.intercalate ", " names))])
  else
    let performer_names := performers.map (fun p =>
      pyStr ((findKey p "name").getD .null) ++ " ("
        ++ pyStr ((findKey p "department").getD .null) ++ ")")
    .ok (.obj [
      ("top_performers", .arr performer_list),
      ("count", .num (qnat performers.length)),
      ("summary", .str ("🏆 Top performers across company: "
        ++ String.intercalate ", " performer_names))])

/-- `BusinessMCPServer.get_open_tickets`. -/
def get_open_tickets (fs : FileSystem) : Except String JVal :=
  let tickets_data := load_data fs "support.json"
  match selectNe tickets_data "status" (.str "Resolved") with
  | .error e => .error e
  | .ok open_tickets =>
  match ticketFreqs open_tickets [] [] with
  | .error e => .error e
  | .ok (by_status, by_priority) =>
  let status_summary := String.intercalate ", "
    (by_status.map (fun p => pyStr p.1 ++ ": " ++ String.mk (natChars p.2)))
  .ok (.obj [
    ("open_tickets_count", .num (qnat open_tickets.length)),
    ("tickets_by_status", freqObj by_status),
    ("tickets_by_priority", freqObj by_priority),
    ("open_tickets", .arr (open_tickets.map JVal.obj)),
    ("summary", .str ("📩 There are " ++ String.mk (natChars open_tickets.length)
      ++ " unresolved tickets (" ++ status_summary ++ ")"))])

/-- `BusinessMCPServer.analyze_sales_performance`.  `region` is the raw
argument value (`None` when absent). -/
def analyze_sales_performance (fs : FileSystem) (region : JVal) : Except String JVal :=
  let sales_data := load_data fs "sales.json"
  match (if pyTruthy region then selectEq sales_data "region" region
         else .ok sales_data) with
  | .error e => .error e
  | .ok filtered_sales =>
  match freqOf filtered_sales "status" [] with
  | .error e => .error e
  | .ok by_status =>
  match sumKey filtered_sales "amount" with
  | .error e => .error e
  | .ok total_amount =>
  match sumKeyWhere filtered_sales "amount" "status" (.str "Closed Won") with
  | .error e => .error e
  | .ok closed_amount =>
  let avg_deal_size : Rat :=
    if filtered_sales.isEmpty then 0 else qdiv total_amount (qnat filtered_sales.length)
  let summary :=
    if pyTruthy region then
      "📈 Sales in " ++ pyStr region ++ ": " ++ String.mk (natChars filtered_sales.length)
        ++ " deals totaling $" ++ String.mk (numChars total_amount)
        ++ " ($" ++ String.mk (numChars closed_amount) ++ " closed)"
    else
      "📈 Global Sales: " ++ String.mk (natChars filtered_sales.length)
        ++ " deals totaling $" ++ String.mk (numChars total_amount)
        ++ " ($" ++ String.mk (numChars closed_amount) ++ " closed)"
  .ok (.obj [
    ("region", if pyTruthy region then region else .str "All Regions"),
    ("total_deals", .num (qnat filtered_sales.length)),
    ("total_amount", .num total_amount),
    ("closed_amount", .num closed_amount),
    ("deals_by_status", freqObj by_status),
    ("average_deal_size", .num avg_deal_size),
    ("summary", .str summary)])

/-- `BusinessMCPServer.get_business_overview`. -/
def get_business_overview (fs : FileSystem) : Except String JVal :=
  let sales_data := load_data fs "sales.json"
  let hr_data := load_data fs "hr.json"
  let support_data := load_data fs "support.json"
  match sumKeyWhere sales_data "amount" "status" (.str "Closed Won") with
  | .error e => .error e
  | .ok total_revenue =>
  match selectNe support_data "status" (.str "Resolved") with
  | .error e => .error e
  | .ok open_tickets =>
  match selectEq hr_data "performance" (.str "Excellent") with
  | .error e => .error e
  | .ok top_performers =>
  match selectEq hr_data "department" (.str "Engineering") with
  | .error e => .error e
  | .ok engineering =>
  match selectEq hr_data "department" (.str "Sales") with
  | .error e => .error e
  | .ok sales_dept =>
  match selectEq hr_data "department" (.str "Marketing") with
  | .error e => .error e
  | .ok marketing =>
  match selectEq hr_data "department" (.str "Support") with
  | .error e => .error e
  | .ok support_dept =>
  .ok (.obj [
    ("business_health", .obj [
      ("revenue", .num total_revenue),
      ("employees", .num (qnat hr_data.length)),
      ("open_tickets", .num (qnat open_tickets.length)),
      ("top_performers", .num (qnat top_performers.length)),
      ("customer_satisfaction", .str "High")]),
    ("departments", .obj [
      ("Engineering", .num (qnat engineering.length)),
      ("Sales", .num (qnat sales_dept.length)),
      ("Marketing", .num (qnat marketing.length)),
      ("Support", .num (qnat support_dept.length))]),
    ("summary", .str ("🏢 Business Overview: $" ++ String.mk (numChars total_revenue)
      ++ " revenue, " ++ String.mk (natChars hr_data.length)
      ++ " employees, " ++ String.mk (natChars open_tickets.length)
      ++ " open tickets, " ++ String.mk (natChars top_performers.length)
      ++ " top performers"))])

/-! ### Tool registry, dispatcher, HTTP adapter -/

/-- `BusinessMCPServer.get_available_tools`, as the JSON value it serialises
to (the static five-descriptor catalogue, in source order). -/
def get_available_tools : JVal := .arr [
  .obj [
    ("name", .str "get_revenue_summary"),
    ("description", .str "Get total revenue summary from closed sales"),
    ("inputSchema", .obj [
      ("type", .str "object"),
      ("properties", .obj [])])],
  .obj [
    ("name", .str "get_top_performers"),
    ("description", .str "Get top performing employees"),
    ("inputSchema", .obj [
      ("type", .str "object"),
      ("properties", .obj [
        ("department", .obj [
          ("type", .str "string"),
          ("description", .str "Filter by department (optional)"),
          ("enum", .arr [.str "Engineering", .str "Sales", .str "Marketing", .str "Support"])])])])],
  .obj [
    ("name", .str "get_open_tickets"),
    ("description", .str "Get count and details of open support tickets"),
    ("inputSchema", .obj [
      ("type", .str "object"),
      ("properties", .obj [])])],
  .obj [
    ("name", .str "analyze_sales_performance"),
    ("description", .str "Analyze sales performance by region and status"),
    ("inputSchema", .obj [
      ("type", .str "object"),
      ("properties", .obj [
        ("region", .obj [
          ("type", .str "string"),
          ("description", .str "Filter by region (optional)"),
          ("enum", .arr [.str "North America", .str "Europe", .str "Asia"])])])])],
  .obj [
    ("name", .str "get_business_overview"),
    ("description", .str "Get comprehensive business overview across all departments"),
    ("inputSchema", .obj [
      ("type", .str "object"),
      ("properties", .obj [])])]]

/-- The five registered tool names, in dispatch order. -/
def toolNames : List String :=
  ["get_revenue_summary", "get_top_performers", "get_open_tickets",
   "analyze_sales_performance", "get_business_overview"]

/-- The `{"error": msg}` failure envelope of the dispatcher. -/
def errObj (msg : String) : JVal := .obj [("error", .str msg)]

/-- The `try/except` boundary of `handle_tool_call`: a fault raised while
executing a tool becomes `{"error": str(e)}`. -/
def wrapResult : Except String JVal → JVal
  | .ok v => v
  | .error e => errObj e

/-- `v.get(k)` on an argument mapping: `None` when the key is absent,
`AttributeError` when `v` is not a dict. -/
def pyGet (v : JVal) (k : String) : Except String JVal :=
  match v with
  | .obj fields => .ok ((findKey fields k).getD .null)
  | _ => .error ("AttributeError: get of " ++ k)

/-- `BusinessMCPServer.handle_tool_call`: the dispatcher.  Total by
construction — executor faults are absorbed into the error envelope, an
unknown name yields `{"error": "Unknown tool: <name>"}`.  `tool_name` is a
`JVal` because the WebSocket adapter passes `params.get("name")` unchecked. -/
def handle_tool_call (fs : FileSystem) (tool_name : JVal) (arguments : JVal) : JVal :=
  if tool_name = .str "get_revenue_summary" then
    wrapResult (get_revenue_summary fs)
  else if tool_name = .str "get_top_performers" then
    wrapResult (match pyGet arguments "department" with
      | .error e => .error e
      | .ok dep => get_top_performers fs dep)
  else if tool_name = .str "get_open_tickets" then
    wrapResult (get_open_tickets fs)
  else if tool_name = .str "analyze_sales_performance" then
    wrapResult (match pyGet arguments "region" with
      | .error e => .error e
      | .ok reg => analyze_sales_performance fs reg)
  else if tool_name = .str "get_business_overview" then
    wrapResult (get_business_overview fs)
  else errObj ("Unknown tool: " ++ pyStr tool_name)

/-- The HTTP route `POST /tools/{tool_name}`: the response body is always
`{"result": <dispatch outcome>}` (FastAPI guarantees `arguments` is a dict
before the handler runs). -/
def call_tool (fs : FileSystem) (tool_name : String) (arguments : List (String × JVal)) : JVal :=
  .obj [("result", handle_tool_call fs (.str tool_name) (.obj arguments))]

/-- The HTTP route `GET /tools`. -/
def list_tools : JVal := .obj [("tools", get_available_tools)]

/-! ### JSON wire format: `json.dumps` / `json.loads`

The printer is compact (`json.dumps` with `indent=2` inserts only
insignificant whitespace, which `json.loads` discards; the embedded text is
modelled without it, and likewise without the `ensure_ascii` transcription of
non-ASCII characters, which also does not change the decoded value).  The
parser covers exactly the grammar the printer emits: this is the fragment of
`json.loads` the round-trip property exercises. -/

/-- The double-quote character. -/
def qChar : Char := Char.ofNat 34

/-- The backslash character. -/
def bsChar : Char := Char.ofNat 92

/-- Opening curly bracket. -/
def lbrace : Char := Char.ofNat 123

/-- Closing curly bracket. -/
def rbrace : Char := Char.ofNat 125

/-- String escaping: quotes and backslashes are escaped; other characters are
emitted as-is. -/
def escChar (c : Char) : List Char :=
  if c = qChar ∨ c = bsChar then [bsChar, c] else [c]

/-- Escape a character list. -/
def escChars : List Char → List Char
  | [] => []
  | c :: cs => escChar c ++ escChars cs

mutual

/-- Serialise a `JVal` to JSON text (character list). -/
def printV : JVal → List Char
  | .null => 'n' :: ['u', 'l', 'l']
  | .bool true => 't' :: ['r', 'u', 'e']
  | .bool false => 'f' :: ['a', 'l', 's', 'e']
  | .num q => numChars q
  | .str s => qChar :: (escChars s.data ++ [qChar])
  | .arr xs => '[' :: (printElems xs ++ [']'])
  | .obj fs => lbrace :: (printFields fs ++ [rbrace])

/-- Comma-separated array elements. -/
def printElems : List JVal → List Char
  | [] => []
  | [x] => printV x
  | x :: xs => printV x ++ (',' :: printElems xs)

/-- Comma-separated object members. -/
def printFields : List (String × JVal) → List Char
  | [] => []
  | [(k, v)] => (qChar :: (escChars k.data ++ [qChar])) ++ (':' :: printV v)
  | (k, v) :: fs =>
    (qChar :: (escChars k.data ++ [qChar])) ++ (':' :: printV v) ++ (',' :: printFields fs)

end

/-- `json.dumps`. -/
def jsonDumps (v : JVal) : String := String.mk (printV v)

/-- Longest digit run at the head of the input. -/
def takeDigits : List Char → List Char × List Char
  | [] => ([], [])
  | c :: rest =>
    if isDigitC c then
      let p := takeDigits rest
      (c :: p.1, p.2)
    else ([], c :: rest)

/-- Numeric value of a digit run (most significant first). -/
def digitsVal (ds : List Char) : Nat := ds.foldl (fun acc c => 10 * acc + digitVal c) 0

/-- Apply an optional leading minus sign. -/
def intOfParts (neg : Bool) (n : Nat) : Int := if neg then -(n : Int) else n

/-- Parse the unsigned body of a JSON number (integer or fixed-point
fraction); `neg` records a consumed leading minus sign. -/
def parseNumBody (neg : Bool) (cs : List Char) : Option (JVal × List Char) :=
  match takeDigits cs with
  | ([], _) => none
  | (ds, rest) =>
    match rest with
    | c :: rest' =>
      if c = '.' then
        match takeDigits rest' with
        | ([], _) => none
        | (fds, rest'') =>
          some (.num (Rat.divInt
              (intOfParts neg (digitsVal ds * 10 ^ fds.length + digitsVal fds))
              (10 ^ fds.length)), rest'')
      else some (.num (Rat.divInt (intOfParts neg (digitsVal ds)) 1), c :: rest')
    | [] => some (.num (Rat.divInt (intOfParts neg (digitsVal ds)) 1), [])

/-- Parse a JSON number (optional minus sign, then the body). -/
def parseNum (cs : List Char) : Option (JVal × List Char) :=
  match cs with
  | c :: rest => if c = '-' then parseNumBody true rest else parseNumBody false (c :: rest)
  | [] => none

/-- Parse a string body after the opening quote, undoing `escChar`. -/
def parseStrChars : List Char → Option (List Char × List Char)
  | [] => none
  | c :: rest =>
    if c = qChar then some ([], rest)
    else if c = bsChar then
      match rest with
      | [] => none
      | e :: rest' =>
        match parseStrChars rest' with
        | some (s, r) => some (e :: s, r)
        | none => none
    else
      match parseStrChars rest with
      | some (s, r) => some (c :: s, r)
      | none => none

/-- Consume an expected literal character sequence. -/
def expectChars : List Char → List Char → Option (List Char)
  | [], cs => some cs
  | p :: ps, cs =>
    match cs with
    | c :: rest => if c = p then expectChars ps rest else none
    | [] => none

mutual

/-- Fuel-indexed recursive-descent JSON parser. -/
def parseV : Nat → List Char → Option (JVal × List Char)
  | 0, _ => none
  | fuel + 1, cs =>
    match cs with
    | [] => none
    | c :: rest =>
      if c = 'n' then
        match expectChars ['u', 'l', 'l'] rest with
        | some r => some (.null, r)
        | none => none
      else if c = 't' then
        match expectChars ['r', 'u', 'e'] rest with
        | some r => some (.bool true, r)
        | none => none
      else if c = 'f' then
        match expectChars ['a', 'l', 's', 'e'] rest with
        | some r => some (.bool false, r)
        | none => none
      else if c = qChar then
        match parseStrChars rest with
        | some (s, r) => some (.str (String.mk s), r)
        | none => none
      else if c = '[' then
        if rest.head? = some ']' then some (.arr [], rest.tail)
        else
          match parseElems fuel rest with
          | some (xs, r) => some (.arr xs, r)
          | none => none
      else if c = lbrace then
        if rest.head? = some rbrace then some (.obj [], rest.tail)
        else
          match parseFields fuel rest with
          | some (fls, r) => some (.obj fls, r)
          | none => none
      else if c = '-' ∨ isDigitC c = true then parseNum (c :: rest)
      else none

/-- Parse one or more comma-separated array elements and the closing bracket. -/
def parseElems : Nat → List Char → Option (List JVal × List Char)
  | 0, _ => none
  | fuel + 1, cs =>
    match parseV fuel cs with
    | none => none
    | some (v, rest) =>
      if rest.head? = some ',' then
        match parseElems fuel rest.tail with
        | some (vs, r) => some (v :: vs, r)
        | none => none
      else if rest.head? = some ']' then some ([v], rest.tail)
      else none

/-- Parse one or more object members and the closing bracket. -/
def parseFields : Nat → List Char → Option (List (String × JVal) × List Char)
  | 0, _ => none
  | fuel + 1, cs =>
    match cs with
    | [] => none
    | c :: rest =>
      if c = qChar then
        match parseStrChars rest with
        | none => none
        | some (k, r1) =>
          if r1.head? = some ':' then
            match parseV fuel r1.tail with
            | none => none
            | some (v, r3) =>
              if r3.head? = some ',' then
                match parseFields fuel r3.tail with
                | some (fls, r) => some ((String.mk k, v) :: fls, r)
                | none => none
              else if r3.head? = some rbrace then some ([(String.mk k, v)], r3.tail)
              else none
          else none
      else none

end

/-- `json.loads`: the whole input must be consumed.  Inbound frames with
duplicate object keys are modelled first-key-wins (Python keeps the last
value); no frame any theorem quantifies over has duplicate keys. -/
def jsonParse (s : String) : Option JVal :=
  match parseV (s.data.length + 1) s.data with
  | some (v, []) => some v
  | _ => none

/-! ### WebSocket session adapter

One iteration of the `while True` receive loop, as a pure step: `reply` sends
exactly one frame and keeps the session, `ignore` sends nothing and keeps the
session, `close` is the `except` path — the connection is removed from
`connected_clients` and the loop exits.  Transport-level send/receive faults
and disconnects are outside the pure model; they also take the `close` path. -/

/-- Outcome of processing one inbound WebSocket frame. -/
inductive WsOut where
  | reply (resp : JVal)
  | ignore
  | close
deriving DecidableEq

/-- The `tools/list` response frame. -/
def wsListResponse (m : List (String × JVal)) : JVal :=
  .obj [("type", .str "tools/list"),
        ("request_id", (findKey m "request_id").getD .null),
        ("result", .obj [("tools", get_available_tools)])]

/-- The `tools/call` branch: extract `params.get("name")` /
`params.get("arguments", {})` and wrap the dispatch outcome; a non-dict
`params` value raises `AttributeError` (the `.get` attribute is missing). -/
def wsCallResponse (fs : FileSystem) (m : List (String × JVal)) : Except String JVal :=
  match (findKey m "params").getD (.obj []) with
  | .obj pf =>
    let tool_name := (findKey pf "name").getD .null
    let arguments := (findKey pf "arguments").getD (.obj [])
    let result := handle_tool_call fs tool_name arguments
    .ok (.obj [
      ("type", .str "tools/call"),
      ("request_id", (findKey m "request_id").getD .null),
      ("result", .obj [("content", .arr [.obj [
        ("type", .str "text"),
        ("text", .str (jsonDumps result))]])])])
  | _ => .error "AttributeError: get of name"

/-- Process one decoded message: the `if/elif` chain of the receive loop.
A non-dict message raises `AttributeError` on `message.get` (the `except`
path); a dict whose `type` is neither recognised value falls through both
branches and is silently ignored. -/
def wsHandleMsg (fs : FileSystem) (v : JVal) : WsOut :=
  match v with
  | .obj m =>
    if (findKey m "type").getD .null = .str "tools/list" then
      .reply (wsListResponse m)
    else if (findKey m "type").getD .null = .str "tools/call" then
      match wsCallResponse fs m with
      | .ok resp => .reply resp
      | .error _ => .close
    else .ignore
  | _ => .close

/-- Process one raw inbound frame: `json.loads` failure takes the `except`
path. -/
def wsStep (fs : FileSystem) (frame : String) : WsOut :=
  match jsonParse frame with
  | none => .close
  | some v => wsHandleMsg fs v

/-- The text of the single response frame sent for `frame` (empty when no
frame is sent). -/
def wsReplyText (fs : FileSystem) (frame : String) : String :=
  match wsStep fs frame with
  | .reply r => jsonDumps r
  | _ => ""

/-- The receive loop over a sequence of inbound frames: the emitted response
frames in order, and whether the session is still open (still a member of
`connected_clients`) afterwards. -/
def wsRun (fs : FileSystem) : List String → List String × Bool
  | [] => ([], true)
  | f :: rest =>
    match wsStep fs f with
    | .reply r =>
      let p := wsRun fs rest
      (jsonDumps r :: p.1, p.2)
    | .ignore => wsRun fs rest
    | .close => ([], false)

/-! ### Canonical values

`canonV v` holds when every number in `v` prints exactly: its denominator is
1 or divides `E17`.  This is where the exact-rational model meets Python
floats: a float always reprints exactly (its value is a finite binary — hence
decimal — fraction), while a general rational need not. -/

mutual

/-- All numbers in the value render exactly. -/
def canonV : JVal → Bool
  | .null => true
  | .bool _ => true
  | .num q => q.den = 1 || E17 % q.den = 0
  | .str _ => true
  | .arr xs => canonL xs
  | .obj fs => canonFL fs

/-- `canonV` over array elements. -/
def canonL : List JVal → Bool
  | [] => true
  | x :: xs => canonV x && canonL xs

/-- `canonV` over object member values. -/
def canonFL : List (String × JVal) → Bool
  | [] => true
  | p :: fs => canonV p.2 && canonFL fs

end

/-! ### Statement-side helpers and comprehension lemmas -/

/-- The record has field `k` with a numeric value. -/
def isNumField (r : Record) (k : String) : Bool :=
  match findKey r k with
  | some (.num _) => true
  | _ => false

/-- The record has field `k` (any value). -/
def hasField (r : Record) (k : String) : Bool := (findKey r k).isSome

/-- The record has field `k` with a string value. -/
def isStrField (r : Record) (k : String) : Bool :=
  match findKey r k with
  | some (.str _) => true
  | _ => false

/-- The numeric value of field `k` (0 when absent or non-numeric). -/
def numField (r : Record) (k : String) : Rat :=
  match findKey r k with
  | some (.num q) => q
  | _ => 0

/-- Boolean test `r[k] == v` (false when the field is absent). -/
def fieldEq (k : String) (v : JVal) (r : Record) : Bool :=
  decide (findKey r k = some v)


theorem getKey_ok {r : Record} {k : String} {v : JVal} (h : findKey r k = some v) :
    getKey r k = .ok v := by
  simp [getKey, h]

theorem getKey_ok_inv {r : Record} {k : String} {x : JVal} (h : getKey r k = .ok x) :
    findKey r k = some x := by
  rw [getKey] at h
  cases hf : findKey r k with
  | none => rw [hf] at h; simp at h
  | some y => rw [hf] at h; simp at h; exact congrArg some h

theorem selectEq_ok {rs : List Record} {k : String} (v : JVal)
    (h : ∀ r ∈ rs, hasField r k = true) :
    selectEq rs k v = .ok (rs.filter (fieldEq k v)) := by
  induction rs with
  | nil => simp [selectEq]
  | cons r rest ih =>
    have hr := h r (by simp)
    rw [hasField, Option.isSome_iff_exists] at hr
    obtain ⟨x, hx⟩ := hr
    have ihr := ih (fun r hm => h r (by simp [hm]))
    simp only [selectEq, getKey_ok hx, ihr]
    rw [List.filter_cons]
    by_cases hxv : x = v
    · have hc : fieldEq k v r = true := by simp [fieldEq, hx, hxv]
      simp [hc, hxv]
    · have hc : fieldEq k v r = false := by simp [fieldEq, hx, hxv]
      simp [hc, hxv]

theorem selectEq_ok_inv {rs : List Record} {k : String} {v : JVal} {l : List Record}
    (h : selectEq rs k v = .ok l) : l = rs.filter (fieldEq k v) := by
  induction rs generalizing l with
  | nil =>
    simp [selectEq] at h
    subst h
    simp
  | cons r rest ih =>
    rw [selectEq] at h
    cases hg : getKey r k with
    | error e => rw [hg] at h; simp at h
    | ok x =>
      rw [hg] at h
      cases hs : selectEq rest k v with
      | error e => rw [hs] at h; simp at h
      | ok tail =>
        rw [hs] at h
        simp only [Except.ok.injEq] at h
        have hx := getKey_ok_inv hg
        have ht := ih hs
        by_cases hxv : x = v
        · rw [if_pos hxv] at h
          subst h
          have hc : fieldEq k v r = true := by simp [fieldEq, hx, hxv]
          simp [List.filter_cons, hc, ht]
        · rw [if_neg hxv] at h
          subst h
          have hc : fieldEq k v r = false := by simp [fieldEq, hx, hxv]
          simp [List.filter_cons, hc, ht]

theorem selectNe_ok {rs : List Record} {k : String} (v : JVal)
    (h : ∀ r ∈ rs, hasField r k = true) :
    selectNe rs k v = .ok (rs.filter (fun r => !fieldEq k v r)) := by
  induction rs with
  | nil => simp [selectNe]
  | cons r rest ih =>
    have hr := h r (by simp)
    rw [hasField, Option.isSome_iff_exists] at hr
    obtain ⟨x, hx⟩ := hr
    have ihr := ih (fun r hm => h r (by simp [hm]))
    simp only [selectNe, getKey_ok hx, ihr]
    rw [List.filter_cons]
    by_cases hxv : x = v
    · have hc : fieldEq k v r = true := by simp [fieldEq, hx, hxv]
      simp [hc, hxv]
    · have hc : fieldEq k v r = false := by simp [fieldEq, hx, hxv]
      simp [hc, hxv]

theorem selectNe_ok_inv {rs : List Record} {k : String} {v : JVal} {l : List Record}
    (h : selectNe rs k v = .ok l) : l = rs.filter (fun r => !fieldEq k v r) := by
  induction rs generalizing l with
  | nil =>
    simp [selectNe] at h
    subst h
    simp
  | cons r rest ih =>
    rw [selectNe] at h
    cases hg : getKey r k with
    | error e => rw [hg] at h; simp at h
    | ok x =>
      rw [hg] at h
      cases hs : selectNe rest k v with
      | error e => rw [hs] at h; simp at h
      | ok tail =>
        rw [hs] at h
        simp only [Except.ok.injEq] at h
        have hx := getKey_ok_inv hg
        have ht := ih hs
        by_cases hxv : x = v
        · rw [if_neg (by simp [hxv])] at h
          subst h
          have hc : fieldEq k v r = true := by simp [fieldEq, hx, hxv]
          simp [List.filter_cons, hc, ht]
        · rw [if_pos (by simp [hxv])] at h
          subst h
          have hc : fieldEq k v r = false := by simp [fieldEq, hx, hxv]
          simp [List.filter_cons, hc, ht]

theorem getNums_ok {rs : List Record} {k : String}
    (h : ∀ r ∈ rs, isNumField r k = true) :
    getNums rs k = .ok (rs.map (numField · k)) := by
  induction rs with
  | nil => simp [getNums]
  | cons r rest ih =>
    have hr := h r (by simp)
    rw [isNumField] at hr
    cases hf : findKey r k with
    | none => rw [hf] at hr; simp at hr
    | some x =>
      cases x with
      | num q =>
        have ihr := ih (fun r hm => h r (by simp [hm]))
        simp [getNums, getKey_ok hf, ihr, numField, hf]
      | null => rw [hf] at hr; simp at hr
      | bool b => rw [hf] at hr; simp at hr
      | str s => rw [hf] at hr; simp at hr
      | arr xs => rw [hf] at hr; simp at hr
      | obj fs => rw [hf] at hr; simp at hr

theorem sumKey_ok {rs : List Record} {k : String}
    (h : ∀ r ∈ rs, isNumField r k = true) :
    sumKey rs k = .ok ((rs.map (numField · k)).sum) := by
  simp only [sumKey, getNums_ok h]
  rw [qsum_eq]

/-- Well-formedness of a sales record as claim C4 assumes it: a numeric
`amount` and a `status` field. -/
def salesRecOK (r : Record) : Bool := isNumField r "amount" && hasField r "status"

/-- Well-formedness of a personnel record: a string `name` (the summary join
requires a string) and `department`, `salary`, `performance` fields. -/
def hrRecOK (r : Record) : Bool :=
  isStrField r "name" && hasField r "department" && hasField r "salary"
    && hasField r "performance"

/-- The pure four-field projection of a personnel record. -/
def projPure (r : Record) : JVal :=
  .obj [("name", (findKey r "name").getD .null),
        ("department", (findKey r "department").getD .null),
        ("salary", (findKey r "salary").getD .null),
        ("performance", (findKey r "performance").getD .null)]

theorem projPerformer_ok {r : Record} (h : hrRecOK r = true) :
    projPerformer r = .ok (projPure r) := by
  rw [hrRecOK] at h
  simp only [Bool.and_eq_true] at h
  obtain ⟨⟨⟨hn, hd⟩, hs⟩, hp⟩ := h
  rw [isStrField] at hn
  rw [hasField, Option.isSome_iff_exists] at hd hs hp
  obtain ⟨dv, hdv⟩ := hd
  obtain ⟨sv, hsv⟩ := hs
  obtain ⟨pv, hpv⟩ := hp
  cases hnv : findKey r "name" with
  | none => rw [hnv] at hn; simp at hn
  | some nv =>
    cases nv with
    | str s =>
      simp [projPerformer, getKey_ok hnv, getKey_ok hdv, getKey_ok hsv, getKey_ok hpv,
        projPure, hnv, hdv, hsv, hpv]
    | null => rw [hnv] at hn; simp at hn
    | bool b => rw [hnv] at hn; simp at hn
    | num q => rw [hnv] at hn; simp at hn
    | arr xs => rw [hnv] at hn; simp at hn
    | obj fs => rw [hnv] at hn; simp at hn

theorem projAll_ok {rs : List Record} (h : ∀ r ∈ rs, hrRecOK r = true) :
    projAll rs = .ok (rs.map projPure) := by
  induction rs with
  | nil => simp [projAll]
  | cons r rest ih =>
    have ihr := ih (fun r hm => h r (by simp [hm]))
    simp [projAll, projPerformer_ok (h r (by simp)), ihr]

theorem namesOf_ok {rs : List Record} (h : ∀ r ∈ rs, isStrField r "name" = true) :
    ∃ ns, namesOf rs = .ok ns := by
  induction rs with
  | nil => exact ⟨[], by simp [namesOf]⟩
  | cons r rest ih =>
    obtain ⟨ns, hns⟩ := ih (fun r hm => h r (by simp [hm]))
    have hr := h r (by simp)
    rw [isStrField] at hr
    cases hf : findKey r "name" with
    | none => rw [hf] at hr; simp at hr
    | some x =>
      cases x with
      | str s => exact ⟨s :: ns, by simp [namesOf, getKey_ok hf, hns]⟩
      | null => rw [hf] at hr; simp at hr
      | bool b => rw [hf] at hr; simp at hr
      | num q => rw [hf] at hr; simp at hr
      | arr xs => rw [hf] at hr; simp at hr
      | obj fs => rw [hf] at hr; simp at hr

theorem qdiv_nat (a b : Nat) : qdiv (qnat a) (qnat b) = (a : Rat) / b := by
  rw [qdiv_eq, qnat_eq, qnat_eq]

/-! ### Claims about the dispatcher and HTTP adapter -/

theorem unknown_dispatch (fs : FileSystem) (name : String) (args : JVal)
    (h : name ∉ toolNames) :
    handle_tool_call fs (.str name) args = errObj ("Unknown tool: " ++ name) := by
  rw [toolNames] at h
  simp only [List.mem_cons, List.not_mem_nil, or_false, not_or] at h
  obtain ⟨h1, h2, h3, h4, h5⟩ := h
  rw [handle_tool_call]
  rw [if_neg (by simp [h1]), if_neg (by simp [h2]), if_neg (by simp [h3]),
    if_neg (by simp [h4]), if_neg (by simp [h5])]
  rfl

/-- Claim C2: for every tool name outside the five registered ones and every
argument value, `handle_tool_call` returns the failure envelope
`{"error": "Unknown tool: <name>"}` — whose message contains the requested
name — and, being a total function of this embedding (the `try/except`
absorbs every executor fault), never lets an exception escape. -/
theorem c2_unknown_tool_failure (fs : FileSystem) (name : String) (args : JVal)
    (h : name ∉ toolNames) :
    handle_tool_call fs (.str name) args = errObj ("Unknown tool: " ++ name)
      ∧ ∃ pre post, "Unknown tool: " ++ name = pre ++ name ++ post :=
  ⟨unknown_dispatch fs name args h, "Unknown tool: ", "", by simp⟩

/-- Witness for C2 at the concrete unregistered name `frobnicate`. -/
theorem c2_unknown_tool_failure_witness :
    handle_tool_call (fun _ => none) (.str "frobnicate") .null
        = errObj ("Unknown tool: " ++ "frobnicate")
      ∧ ∃ pre post, "Unknown tool: " ++ "frobnicate" = pre ++ "frobnicate" ++ post :=
  c2_unknown_tool_failure (fun _ => none) "frobnicate" .null (by decide)

/-- Claim C8: the HTTP `POST /tools/{name}` handler always returns a body of
the shape `{"result": ...}` holding the dispatch outcome, and for an unknown
tool the error envelope is folded into the `result` object (no distinct
transport-level error shape). -/
theorem c8_http_result_shape (fs : FileSystem) (name : String)
    (args : List (String × JVal)) :
    call_tool fs name args = .obj [("result", handle_tool_call fs (.str name) (.obj args))]
      ∧ (name ∉ toolNames →
          handle_tool_call fs (.str name) (.obj args) = errObj ("Unknown tool: " ++ name)) :=
  ⟨rfl, fun h => unknown_dispatch fs name (.obj args) h⟩

/-- Witness for C8 at the concrete unregistered name `nope`. -/
theorem c8_http_result_shape_witness :
    call_tool (fun _ => none) "nope" [] =
        .obj [("result", handle_tool_call (fun _ => none) (.str "nope") (.obj []))]
      ∧ handle_tool_call (fun _ => none) (.str "nope") (.obj [])
        = errObj ("Unknown tool: " ++ "nope") :=
  ⟨(c8_http_result_shape (fun _ => none) "nope" []).1,
   (c8_http_result_shape (fun _ => none) "nope" []).2 (by decide)⟩

/-! ### Claim C3: executor totality -/

/-- Claim C3 counterexample: a sales dataset holding one record with no
fields.  `get_revenue_summary` raises `KeyError` on the very first status
access — it does not return a zero/empty-valued result — refuting the claim
that every executor is total on malformed records. -/
theorem c3_executor_totality_counterexample :
    get_revenue_summary (fun n => if n = "sales.json" then some [[]] else none)
        = .error "KeyError: status"
      ∧ ∀ r, get_revenue_summary (fun n => if n = "sales.json" then some [[]] else none)
        ≠ .ok r := by
  have h1 : get_revenue_summary (fun n => if n = "sales.json" then some [[]] else none)
      = .error "KeyError: status" := by decide
  refine ⟨h1, fun r h => ?_⟩
  rw [h1] at h
  simp at h

/-- Claim C3 amended: every executor degrades missing dataset files and empty
datasets to a zero/empty-valued result, and a fault raised on a malformed
record (a record lacking a required field) is caught at the dispatcher
boundary — `handle_tool_call` converts it into the `{"error": ...}` envelope
and never re-raises. -/
theorem c3_executor_totality_amended :
    (get_revenue_summary (fun _ => none) = .ok (.obj [
        ("total_closed_revenue", .num 0), ("potential_revenue", .num 0),
        ("closed_deals", .num 0), ("deals_in_progress", .num 0),
        ("lost_deals", .num 0), ("win_rate", .num 0),
        ("summary", .str "✅ Total Closed Revenue: $0 | 📊 0 closed deals (0% win rate)")]))
    ∧ (get_top_performers (fun _ => none) .null = .ok (.obj [
        ("top_performers", .arr []), ("count", .num 0),
        ("summary", .str "🏆 Top performers across company: ")]))
    ∧ (get_open_tickets (fun _ => none) = .ok (.obj [
        ("open_tickets_count", .num 0), ("tickets_by_status", .obj []),
        ("tickets_by_priority", .obj []), ("open_tickets", .arr []),
        ("summary", .str "📩 There are 0 unresolved tickets ()")]))
    ∧ (analyze_sales_performance (fun _ => none) .null = .ok (.obj [
        ("region", .str "All Regions"), ("total_deals", .num 0),
        ("total_amount", .num 0), ("closed_amount", .num 0),
        ("deals_by_status", .obj []), ("average_deal_size", .num 0),
        ("summary", .str "📈 Global Sales: 0 deals totaling $0 ($0 closed)")]))
    ∧ (get_business_overview (fun _ => none) = .ok (.obj [
        ("business_health", .obj [
          ("revenue", .num 0), ("employees", .num 0), ("open_tickets", .num 0),
          ("top_performers", .num 0), ("customer_satisfaction", .str "High")]),
        ("departments", .obj [
          ("Engineering", .num 0), ("Sales", .num 0),
          ("Marketing", .num 0), ("Support", .num 0)]),
        ("summary", .str "🏢 Business Overview: $0 revenue, 0 employees, 0 open tickets, 0 top performers")]))
    ∧ (∀ fs args e, get_revenue_summary fs = .error e →
        handle_tool_call fs (.str "get_revenue_summary") args = errObj e)
    ∧ (∀ fs (argsF : List (String × JVal)) e,
        get_top_performers fs ((findKey argsF "department").getD .null) = .error e →
        handle_tool_call fs (.str "get_top_performers") (.obj argsF) = errObj e)
    ∧ (∀ fs args e, get_open_tickets fs = .error e →
        handle_tool_call fs (.str "get_open_tickets") args = errObj e)
    ∧ (∀ fs (argsF : List (String × JVal)) e,
        analyze_sales_performance fs ((findKey argsF "region").getD .null) = .error e →
        handle_tool_call fs (.str "analyze_sales_performance") (.obj argsF) = errObj e)
    ∧ (∀ fs args e, get_business_overview fs = .error e →
        handle_tool_call fs (.str "get_business_overview") args = errObj e) := by
  refine ⟨by decide, by decide, by decide, by decide, by decide, ?_, ?_, ?_, ?_, ?_⟩
  · intro fs args e h
    simp [handle_tool_call, wrapResult, h]
  · intro fs argsF e h
    simp [handle_tool_call, wrapResult, pyGet, h]
  · intro fs args e h
    simp [handle_tool_call, wrapResult, h]
  · intro fs argsF e h
    simp [handle_tool_call, wrapResult, pyGet, h]
  · intro fs args e h
    simp [handle_tool_call, wrapResult, h]

/-- Witness for the C3 amendment: the malformed-record fault of the
counterexample dataset is absorbed by the dispatcher into an error
envelope. -/
theorem c3_executor_totality_amended_witness :
    handle_tool_call (fun n => if n = "sales.json" then some [[]] else none)
        (.str "get_revenue_summary") .null = errObj "KeyError: status" :=
  c3_executor_totality_amended.2.2.2.2.2.1
    (fun n => if n = "sales.json" then some [[]] else none) .null "KeyError: status"
    (by decide)

/-! ### Claim C7: summaries are present and non-empty on success -/

theorem ne_empty_of_data_ne_nil {s : String} (h : s.data ≠ []) : s ≠ "" := by
  intro he
  subst he
  exact h rfl

theorem str_append_ne_empty (p t : String) (hp : p.data ≠ []) : p ++ t ≠ "" := by
  apply ne_empty_of_data_ne_nil
  rw [String.data_append]
  intro h
  exact hp (List.append_eq_nil.mp h).1

/-- A tool result value carries a non-empty string `summary` field. -/
def summaryOK (res : JVal) : Prop :=
  ∃ flds s, res = .obj flds ∧ findKey flds "summary" = some (.str s) ∧ s ≠ ""

theorem append_data_ne_nil (p t : String) (hp : p.data ≠ []) : (p ++ t).data ≠ [] := by
  rw [String.data_append]
  intro h
  exact hp (List.append_eq_nil.mp h).1

/-- Claim C7: whenever an executor returns a success envelope — for every
dataset state and argument value on which it returns normally — the result
contains a `summary` field holding a non-empty string. -/
theorem c7_summary_nonempty (fs : FileSystem) :
    (∀ r, get_revenue_summary fs = .ok r → summaryOK r)
    ∧ (∀ dep r, get_top_performers fs dep = .ok r → summaryOK r)
    ∧ (∀ r, get_open_tickets fs = .ok r → summaryOK r)
    ∧ (∀ reg r, analyze_sales_performance fs reg = .ok r → summaryOK r)
    ∧ (∀ r, get_business_overview fs = .ok r → summaryOK r) := by
  refine ⟨?_, ?_, ?_, ?_, ?_⟩
  · intro r h
    rw [get_revenue_summary] at h
    repeat' split at h
    any_goals exact Except.noConfusion h
    all_goals
      simp only [Except.ok.injEq] at h
      subst h
      refine ⟨_, _, rfl, rfl, ?_⟩
      apply ne_empty_of_data_ne_nil
      repeat' apply append_data_ne_nil
      decide
  · intro dep r h
    rw [get_top_performers] at h
    repeat' split at h
    any_goals exact Except.noConfusion h
    all_goals
      simp only [Except.ok.injEq] at h
      subst h
      refine ⟨_, _, rfl, rfl, ?_⟩
      apply ne_empty_of_data_ne_nil
      repeat' apply append_data_ne_nil
      decide
  · intro r h
    rw [get_open_tickets] at h
    repeat' split at h
    any_goals exact Except.noConfusion h
    all_goals
      simp only [Except.ok.injEq] at h
      subst h
      refine ⟨_, _, rfl, rfl, ?_⟩
      apply ne_empty_of_data_ne_nil
      repeat' apply append_data_ne_nil
      decide
  · intro reg r h
    rw [analyze_sales_performance] at h
    repeat' split at h
    any_goals exact Except.noConfusion h
    all_goals
      simp only [Except.ok.injEq] at h
      subst h
      refine ⟨_, _, rfl, rfl, ?_⟩
      apply ne_empty_of_data_ne_nil
      repeat' apply append_data_ne_nil
      decide
  · intro r h
    rw [get_business_overview] at h
    repeat' split at h
    any_goals exact Except.noConfusion h
    all_goals
      simp only [Except.ok.injEq] at h
      subst h
      refine ⟨_, _, rfl, rfl, ?_⟩
      apply ne_empty_of_data_ne_nil
      repeat' apply append_data_ne_nil
      decide

/-- Witness for C7: the zero-data revenue summary success carries a non-empty
summary. -/
theorem c7_summary_nonempty_witness :
    summaryOK (.obj [
      ("total_closed_revenue", .num 0), ("potential_revenue", .num 0),
      ("closed_deals", .num 0), ("deals_in_progress", .num 0),
      ("lost_deals", .num 0), ("win_rate", .num 0),
      ("summary", .str "✅ Total Closed Revenue: $0 | 📊 0 closed deals (0% win rate)")]) :=
  (c7_summary_nonempty (fun _ => none)).1 _ (by decide)

/-! ### Claim C4: revenue summary correctness -/

/-- Claim C4: on a sales dataset whose records all carry a numeric `amount`
and a `status`, `get_revenue_summary` succeeds with: closed/potential revenue
the sums of `amount` over the `Closed Won` / `In Progress` partitions, the
three status counts, and `win_rate` equal to closed count over total count —
`0` (not a division fault) on the empty dataset. -/
theorem c4_revenue_summary_correct (fs : FileSystem)
    (h : (load_data fs "sales.json").all salesRecOK = true) :
    ∃ flds, get_revenue_summary fs = .ok (.obj flds)
      ∧ findKey flds "total_closed_revenue"
          = some (.num ((((load_data fs "sales.json").filter
              (fieldEq "status" (.str "Closed Won"))).map (numField · "amount")).sum))
      ∧ findKey flds "potential_revenue"
          = some (.num ((((load_data fs "sales.json").filter
              (fieldEq "status" (.str "In Progress"))).map (numField · "amount")).sum))
      ∧ findKey flds "closed_deals"
          = some (.num (((load_data fs "sales.json").filter
              (fieldEq "status" (.str "Closed Won"))).length))
      ∧ findKey flds "deals_in_progress"
          = some (.num (((load_data fs "sales.json").filter
              (fieldEq "status" (.str "In Progress"))).length))
      ∧ findKey flds "lost_deals"
          = some (.num (((load_data fs "sales.json").filter
              (fieldEq "status" (.str "Lost"))).length))
      ∧ findKey flds "win_rate"
          = some (.num (if load_data fs "sales.json" = [] then 0
              else (((load_data fs "sales.json").filter
                  (fieldEq "status" (.str "Closed Won"))).length : Rat)
                / ((load_data fs "sales.json").length : Rat))) := by
  have hall : ∀ r ∈ load_data fs "sales.json", salesRecOK r = true := by
    intro r hr
    exact List.all_eq_true.mp h r hr
  have hstat : ∀ r ∈ load_data fs "sales.json", hasField r "status" = true := by
    intro r hr
    have hh := hall r hr
    rw [salesRecOK, Bool.and_eq_true] at hh
    exact hh.2
  have hamt : ∀ r ∈ load_data fs "sales.json", isNumField r "amount" = true := by
    intro r hr
    have hh := hall r hr
    rw [salesRecOK, Bool.and_eq_true] at hh
    exact hh.1
  have hc := @selectEq_ok (load_data fs "sales.json") "status"
    (.str "Closed Won") hstat
  have hp := @selectEq_ok (load_data fs "sales.json") "status"
    (.str "In Progress") hstat
  have hl := @selectEq_ok (load_data fs "sales.json") "status"
    (.str "Lost") hstat
  have hsum1 := @sumKey_ok ((load_data fs "sales.json").filter
    (fieldEq "status" (.str "Closed Won"))) "amount"
    (fun r hr => hamt r (List.mem_of_mem_filter hr))
  have hsum2 := @sumKey_ok ((load_data fs "sales.json").filter
    (fieldEq "status" (.str "In Progress"))) "amount"
    (fun r hr => hamt r (List.mem_of_mem_filter hr))
  have hwin : (if (load_data fs "sales.json").isEmpty = true then (0 : Rat)
        else qdiv (qnat (((load_data fs "sales.json").filter
            (fieldEq "status" (.str "Closed Won"))).length))
          (qnat (load_data fs "sales.json").length))
      = (if load_data fs "sales.json" = [] then (0 : Rat)
        else (((load_data fs "sales.json").filter
            (fieldEq "status" (.str "Closed Won"))).length : Rat)
          / ((load_data fs "sales.json").length : Rat)) := by
    by_cases hemp : load_data fs "sales.json" = []
    · simp [hemp]
    · rw [if_neg (by simp [List.isEmpty_iff, hemp]), if_neg hemp, qdiv_nat]
  simp only [get_revenue_summary, hc, hp, hl, hsum1, hsum2]
  rw [hwin]
  simp only [qnat_eq]
  exact ⟨_, rfl, rfl, rfl, rfl, rfl, rfl, rfl⟩

/-- The sales dataset of the C4 scenario. -/
def fsScenario : FileSystem := fun n =>
  if n = "sales.json" then
    some [[("amount", .num 1000), ("status", .str "Closed Won")],
          [("amount", .num 500), ("status", .str "Lost")]]
  else none

/-- Witness for C4: the spec scenario — `total_closed_revenue = 1000`,
`win_rate = 1/2`, `closed_deals = 1`, `lost_deals = 1`. -/
theorem c4_revenue_summary_correct_witness :
    ∃ flds, get_revenue_summary fsScenario = .ok (.obj flds)
      ∧ findKey flds "total_closed_revenue" = some (.num 1000)
      ∧ findKey flds "win_rate" = some (.num (mkRat 1 2))
      ∧ findKey flds "closed_deals" = some (.num 1)
      ∧ findKey flds "lost_deals" = some (.num 1) := by
  obtain ⟨flds, hok, h1, h2, h3, h4, h5, h6⟩ := c4_revenue_summary_correct fsScenario (by decide)
  have e1 : (load_data fsScenario "sales.json").filter (fieldEq "status" (.str "Closed Won"))
      = [[("amount", .num 1000), ("status", .str "Closed Won")]] := by decide
  have e1v : ([[("amount", JVal.num 1000), ("status", JVal.str "Closed Won")]].map
      (numField · "amount")) = [1000] := by decide
  have elost : ((load_data fsScenario "sales.json").filter
      (fieldEq "status" (.str "Lost"))).length = 1 := by decide
  have l2 : (load_data fsScenario "sales.json").length = 2 := by decide
  have hne : ¬ load_data fsScenario "sales.json" = [] := by decide
  refine ⟨flds, hok, ?_, ?_, ?_, ?_⟩
  · rw [h1, e1, e1v]
    norm_num
  · rw [h6, if_neg hne]
    rw [e1]
    simp only [List.length_cons, List.length_nil, l2]
    norm_num [Rat.mkRat_eq_divInt, Rat.divInt_eq_div]
  · rw [h3, e1]
    norm_num
  · rw [h5, elost]
    norm_num

/-! ### Claim C5: top performers -/

/-- Claim C5 counterexample: on a personnel dataset holding one record with
no fields, `get_top_performers` raises `KeyError` instead of returning the
filtered list — so the claim does not hold for every personnel dataset. -/
theorem c5_top_performers_counterexample :
    get_top_performers (fun n => if n = "hr.json" then some [[]] else none) .null
        = .error "KeyError: performance"
      ∧ ∀ r, get_top_performers (fun n => if n = "hr.json" then some [[]] else none) .null
        ≠ .ok r := by
  have h1 : get_top_performers (fun n => if n = "hr.json" then some [[]] else none) .null
      = .error "KeyError: performance" := by decide
  refine ⟨h1, fun r h => ?_⟩
  rw [h1] at h
  simp at h

/-- Claim C5 amended: on a personnel dataset whose records all carry a string
`name` and `department`, `salary`, `performance` fields, and for every
department argument, `get_top_performers` succeeds and returns exactly the
four-field projections of the records with `performance = "Excellent"` —
further filtered by `department` when the argument is truthy (Python ignores
a falsy argument such as the empty string) — with `count` equal to the length
of that list (0 for an empty filter result, not an error). -/
theorem c5_top_performers_amended (fs : FileSystem) (department : JVal)
    (h : (load_data fs "hr.json").all hrRecOK = true) :
    ∃ flds, get_top_performers fs department = .ok (.obj flds)
      ∧ findKey flds "top_performers" = some (.arr
          ((if pyTruthy department = true
            then ((load_data fs "hr.json").filter
                (fieldEq "performance" (.str "Excellent"))).filter
                (fieldEq "department" department)
            else (load_data fs "hr.json").filter
                (fieldEq "performance" (.str "Excellent"))).map projPure))
      ∧ findKey flds "count" = some (.num
          (((if pyTruthy department = true
            then ((load_data fs "hr.json").filter
                (fieldEq "performance" (.str "Excellent"))).filter
                (fieldEq "department" department)
            else (load_data fs "hr.json").filter
                (fieldEq "performance" (.str "Excellent"))).length : Rat))) := by
  have hall : ∀ r ∈ load_data fs "hr.json", hrRecOK r = true := by
    intro r hr
    exact List.all_eq_true.mp h r hr
  have hperf : ∀ r ∈ load_data fs "hr.json", hasField r "performance" = true := by
    intro r hr
    have hh := hall r hr
    rw [hrRecOK] at hh
    simp only [Bool.and_eq_true] at hh
    exact hh.2
  have h1 := @selectEq_ok (load_data fs "hr.json") "performance"
    (.str "Excellent") hperf
  have hbase : ∀ r ∈ (load_data fs "hr.json").filter
      (fieldEq "performance" (.str "Excellent")), hrRecOK r = true :=
    fun r hr => hall r (List.mem_of_mem_filter hr)
  by_cases hdept : pyTruthy department = true
  · have hdeps : ∀ r ∈ (load_data fs "hr.json").filter
        (fieldEq "performance" (.str "Excellent")), hasField r "department" = true := by
      intro r hr
      have hh := hbase r hr
      rw [hrRecOK] at hh
      simp only [Bool.and_eq_true] at hh
      exact hh.1.1.2
    have h2 := @selectEq_ok _ "department" department hdeps
    have hsel : ∀ r ∈ ((load_data fs "hr.json").filter
        (fieldEq "performance" (.str "Excellent"))).filter
        (fieldEq "department" department), hrRecOK r = true :=
      fun r hr => hbase r (List.mem_of_mem_filter hr)
    have h3 := projAll_ok hsel
    have hnames : ∀ r ∈ ((load_data fs "hr.json").filter
        (fieldEq "performance" (.str "Excellent"))).filter
        (fieldEq "department" department), isStrField r "name" = true := by
      intro r hr
      have hh := hsel r hr
      rw [hrRecOK] at hh
      simp only [Bool.and_eq_true] at hh
      exact hh.1.1.1
    obtain ⟨ns, hns⟩ := namesOf_ok hnames
    simp only [get_top_performers, h1, hdept, eq_self_iff_true, if_true, h2, h3, hns]
    simp only [qnat_eq]
    exact ⟨_, rfl, rfl, rfl⟩
  · have hdf : pyTruthy department = false := by
      cases hpt : pyTruthy department
      · rfl
      · exact absurd hpt hdept
    have h3 := projAll_ok hbase
    simp only [get_top_performers, h1, hdf, Bool.false_eq_true, if_false, h3]
    simp only [qnat_eq]
    exact ⟨_, rfl, rfl, rfl⟩

/-- The personnel dataset of the C5 witness. -/
def fsTopW : FileSystem := fun n =>
  if n = "hr.json" then
    some [[("name", .str "Ann"), ("department", .str "Engineering"),
           ("salary", .num 100), ("performance", .str "Excellent")],
          [("name", .str "Bob"), ("department", .str "Sales"),
           ("salary", .num 90), ("performance", .str "Excellent")]]
  else none

/-- Witness for the C5 amendment: with `department = "Engineering"` only the
Engineering record is returned and `count = 1`. -/
theorem c5_top_performers_amended_witness :
    ∃ flds, get_top_performers fsTopW (.str "Engineering") = .ok (.obj flds)
      ∧ findKey flds "top_performers" = some (.arr
          [.obj [("name", .str "Ann"), ("department", .str "Engineering"),
                 ("salary", .num 100), ("performance", .str "Excellent")]])
      ∧ findKey flds "count" = some (.num 1) := by
  obtain ⟨flds, hok, h1, h2⟩ :=
    c5_top_performers_amended fsTopW (.str "Engineering") (by decide)
  have esel : (if pyTruthy (JVal.str "Engineering") = true
      then ((load_data fsTopW "hr.json").filter
          (fieldEq "performance" (.str "Excellent"))).filter
          (fieldEq "department" (.str "Engineering"))
      else (load_data fsTopW "hr.json").filter
          (fieldEq "performance" (.str "Excellent")))
      = [[("name", .str "Ann"), ("department", .str "Engineering"),
          ("salary", .num 100), ("performance", .str "Excellent")]] := by decide
  rw [esel] at h1 h2
  have emap : ([[("name", JVal.str "Ann"), ("department", JVal.str "Engineering"),
      ("salary", JVal.num 100), ("performance", JVal.str "Excellent")]].map projPure)
      = [.obj [("name", .str "Ann"), ("department", .str "Engineering"),
               ("salary", .num 100), ("performance", .str "Excellent")]] := by decide
  rw [emap] at h1
  refine ⟨flds, hok, h1, ?_⟩
  rw [h2]
  norm_num

/-! ### Claim C6: business overview department breakdown -/

/-- Claim C6: whenever `get_business_overview` returns a result, its
`departments` mapping holds exactly the four fixed keys `Engineering`,
`Sales`, `Marketing`, `Support`, each mapped to the number of personnel
records of that department (0 when no record has it — the key is never
omitted). -/
theorem c6_overview_departments (fs : FileSystem) (r : JVal)
    (h : get_business_overview fs = .ok r) :
    ∃ flds, r = .obj flds
      ∧ findKey flds "departments" = some (.obj [
          ("Engineering", .num (((load_data fs "hr.json").filter
              (fieldEq "department" (.str "Engineering"))).length : Rat)),
          ("Sales", .num (((load_data fs "hr.json").filter
              (fieldEq "department" (.str "Sales"))).length : Rat)),
          ("Marketing", .num (((load_data fs "hr.json").filter
              (fieldEq "department" (.str "Marketing"))).length : Rat)),
          ("Support", .num (((load_data fs "hr.json").filter
              (fieldEq "department" (.str "Support"))).length : Rat))]) := by
  rw [get_business_overview] at h
  cases h1 : sumKeyWhere (load_data fs "sales.json") "amount" "status" (.str "Closed Won") with
  | error e => rw [h1] at h; exact Except.noConfusion h
  | ok rev =>
  rw [h1] at h
  cases h2 : selectNe (load_data fs "support.json") "status" (.str "Resolved") with
  | error e => rw [h2] at h; exact Except.noConfusion h
  | ok ot =>
  rw [h2] at h
  cases h3 : selectEq (load_data fs "hr.json") "performance" (.str "Excellent") with
  | error e => rw [h3] at h; exact Except.noConfusion h
  | ok tp =>
  rw [h3] at h
  cases h4 : selectEq (load_data fs "hr.json") "department" (.str "Engineering") with
  | error e => rw [h4] at h; exact Except.noConfusion h
  | ok dEng =>
  rw [h4] at h
  cases h5 : selectEq (load_data fs "hr.json") "department" (.str "Sales") with
  | error e => rw [h5] at h; exact Except.noConfusion h
  | ok dSal =>
  rw [h5] at h
  cases h6 : selectEq (load_data fs "hr.json") "department" (.str "Marketing") with
  | error e => rw [h6] at h; exact Except.noConfusion h
  | ok dMar =>
  rw [h6] at h
  cases h7 : selectEq (load_data fs "hr.json") "department" (.str "Support") with
  | error e => rw [h7] at h; exact Except.noConfusion h
  | ok dSup =>
  rw [h7] at h
  simp only [Except.ok.injEq] at h
  subst h
  refine ⟨_, rfl, ?_⟩
  rw [selectEq_ok_inv h4, selectEq_ok_inv h5, selectEq_ok_inv h6, selectEq_ok_inv h7]
  simp only [qnat_eq]
  rfl

/-- Witness for C6: with every dataset missing, the overview succeeds and the
department breakdown still holds all four keys, each with value 0. -/
theorem c6_overview_departments_witness :
    ∃ flds, (JVal.obj [
        ("business_health", .obj [
          ("revenue", .num 0), ("employees", .num 0), ("open_tickets", .num 0),
          ("top_performers", .num 0), ("customer_satisfaction", .str "High")]),
        ("departments", .obj [
          ("Engineering", .num 0), ("Sales", .num 0),
          ("Marketing", .num 0), ("Support", .num 0)]),
        ("summary", .str "🏢 Business Overview: $0 revenue, 0 employees, 0 open tickets, 0 top performers")])
        = .obj flds
      ∧ findKey flds "departments" = some (.obj [
          ("Engineering", .num 0), ("Sales", .num 0),
          ("Marketing", .num 0), ("Support", .num 0)]) := by
  obtain ⟨flds, he, hd⟩ := c6_overview_departments (fun _ => none) (JVal.obj [
      ("business_health", .obj [
        ("revenue", .num 0), ("employees", .num 0), ("open_tickets", .num 0),
        ("top_performers", .num 0), ("customer_satisfaction", .str "High")]),
      ("departments", .obj [
        ("Engineering", .num 0), ("Sales", .num 0),
        ("Marketing", .num 0), ("Support", .num 0)]),
      ("summary", .str "🏢 Business Overview: $0 revenue, 0 employees, 0 open tickets, 0 top performers")])
    (by decide)
  have hz : load_data (fun _ : String => none) "hr.json" = [] := rfl
  refine ⟨flds, he, ?_⟩
  rw [hd, hz]
  norm_num

/-! ### Claims C9 and C10: the WebSocket session loop -/

/-- A well-formed `tools/call` frame: JSON-decodes to an object whose `type`
is `"tools/call"` and whose `params` value (when present) is an object. -/
def wfCallFrame (f : String) : Bool :=
  match jsonParse f with
  | some (.obj m) =>
    decide (findKey m "type" = some (.str "tools/call"))
      && (match (findKey m "params").getD (.obj []) with
          | .obj _ => true
          | _ => false)
  | _ => false

theorem wsStep_call_reply {fs : FileSystem} {f : String} (h : wfCallFrame f = true) :
    ∃ m rf, jsonParse f = some (.obj m) ∧ wsStep fs f = .reply (.obj rf)
      ∧ findKey rf "request_id" = some ((findKey m "request_id").getD .null) := by
  rw [wfCallFrame] at h
  cases hp : jsonParse f with
  | none => rw [hp] at h; simp at h
  | some v =>
    rw [hp] at h
    cases v with
    | obj m =>
      simp only [Bool.and_eq_true, decide_eq_true_eq] at h
      obtain ⟨hty, hpar⟩ := h
      cases hpv : (findKey m "params").getD (.obj []) with
      | obj pf =>
        refine ⟨m, [("type", JVal.str "tools/call"),
          ("request_id", (findKey m "request_id").getD .null),
          ("result", .obj [("content", .arr [.obj [("type", .str "text"),
            ("text", .str (jsonDumps (handle_tool_call fs
              ((findKey pf "name").getD .null)
              ((findKey pf "arguments").getD (.obj [])))))]])])],
          rfl, ?_, ?_⟩
        · rw [wsStep, hp]
          simp only [wsHandleMsg]
          rw [if_neg (by rw [hty]; simp)]
          rw [if_pos (by rw [hty]; simp)]
          rw [wsCallResponse, hpv]
        · rfl
      | null => rw [hpv] at hpar; simp at hpar
      | bool b => rw [hpv] at hpar; simp at hpar
      | num q => rw [hpv] at hpar; simp at hpar
      | str s => rw [hpv] at hpar; simp at hpar
      | arr xs => rw [hpv] at hpar; simp at hpar
    | null => simp at h
    | bool b => simp at h
    | num q => simp at h
    | str s => simp at h
    | arr xs => simp at h

/-- Claim C9: for a sequence of well-formed `tools/call` frames on one open
connection, the session loop emits exactly one response frame per inbound
frame, in arrival order (`wsRun` returns exactly the per-frame reply texts,
connection still open), and each response is tagged with the caller-supplied
`request_id` of its frame — whatever identifier the caller chose. -/
theorem c9_ws_one_reply_per_call (fs : FileSystem) (frames : List String)
    (h : frames.all wfCallFrame = true) :
    wsRun fs frames = (frames.map (wsReplyText fs), true)
      ∧ ∀ f ∈ frames, ∀ m, jsonParse f = some (.obj m) →
          ∃ rf, wsStep fs f = .reply (.obj rf)
            ∧ findKey rf "request_id" = some ((findKey m "request_id").getD .null) := by
  constructor
  · revert h
    induction frames with
    | nil => intro h; simp [wsRun]
    | cons f rest ih =>
      intro h
      have hwf : wfCallFrame f = true := List.all_eq_true.mp h f (by simp)
      have hall : rest.all wfCallFrame = true := by
        rw [List.all_eq_true] at h ⊢
        exact fun x hx => h x (by simp [hx])
      obtain ⟨m, rf, hp, hstep, hrid⟩ := @wsStep_call_reply fs _ hwf
      have ihr := ih hall
      simp only [wsRun, hstep, ihr, List.map_cons]
      simp only [wsReplyText, hstep]
  · intro f hf m hm
    have hwf : wfCallFrame f = true := List.all_eq_true.mp h f hf
    obtain ⟨m', rf, hp', hstep, hrid⟩ := @wsStep_call_reply fs _ hwf
    rw [hm] at hp'
    simp only [Option.some.injEq, JVal.obj.injEq] at hp'
    subst hp'
    exact ⟨rf, hstep, hrid⟩

/-- First inbound frame of the C9 witness. -/
def c9frame1 : String :=
  jsonDumps (.obj [("type", .str "tools/call"), ("request_id", .str "id-1"),
    ("params", .obj [("name", .str "get_revenue_summary")])])

/-- Second inbound frame of the C9 witness, with a previously unseen
`request_id`. -/
def c9frame2 : String :=
  jsonDumps (.obj [("type", .str "tools/call"), ("request_id", .str "zzz-unknown"),
    ("params", .obj [("name", .str "nope")])])

/-- Witness for C9: a two-frame session emits exactly the two replies in
order and echoes the unknown `request_id`. -/
theorem c9_ws_one_reply_per_call_witness :
    wsRun (fun _ => none) [c9frame1, c9frame2]
        = ([wsReplyText (fun _ => none) c9frame1, wsReplyText (fun _ => none) c9frame2], true)
      ∧ ∃ rf, wsStep (fun _ => none) c9frame2 = .reply (.obj rf)
          ∧ findKey rf "request_id" = some (.str "zzz-unknown") := by
  have h := c9_ws_one_reply_per_call (fun _ => none) [c9frame1, c9frame2] (by decide)
  refine ⟨h.1, ?_⟩
  obtain ⟨rf, hstep, hrid⟩ := h.2 c9frame2 (by simp)
    [("type", .str "tools/call"), ("request_id", .str "zzz-unknown"),
     ("params", .obj [("name", .str "nope")])] (by decide)
  refine ⟨rf, hstep, ?_⟩
  rw [hrid]
  decide

/-- The frames on which the receive loop takes the `except` path: a JSON
decode fault, a frame that is valid JSON but not an object (`message.get`
raises `AttributeError`), or a `tools/call` frame whose `params` value is not
an object (`params.get` raises `AttributeError`). -/
def wsCloseFrame (f : String) : Bool :=
  match jsonParse f with
  | none => true
  | some (.obj m) =>
    decide ((findKey m "type").getD .null = .str "tools/call")
      && (match (findKey m "params").getD (.obj []) with
          | .obj _ => false
          | _ => true)
  | some _ => true

/-- Claim C10 counterexample: a frame that parses as JSON — no decode fault,
no transport fault, no disconnect — still exits the message loop (the
`tools/call` branch raises `AttributeError` on its non-dict `params`), so
"only a JSON decode fault, a send/receive fault, or a disconnect exits the
loop" is refuted. -/
theorem c10_silent_ignore_counterexample :
    wsStep (fun _ => none)
        (jsonDumps (.obj [("type", .str "tools/call"), ("params", .num 5)])) = .close
      ∧ jsonParse (jsonDumps (.obj [("type", .str "tools/call"), ("params", .num 5)]))
        = some (.obj [("type", .str "tools/call"), ("params", .num 5)]) := by
  exact ⟨by decide, by decide⟩

/-- Claim C10 amended: a JSON-object frame whose `type` is neither
`tools/list` nor `tools/call` is silently ignored — no response, the loop
continues and the session stays registered; the loop exits (removing the
session) exactly on a decode fault, a non-object JSON frame, or a
`tools/call` frame with a non-object `params` value (`wsCloseFrame`) — the
transport-level faults and disconnects of the original claim live outside
this pure model and also take the close path. -/
theorem c10_silent_ignore_amended (fs : FileSystem) (f : String) :
    (∀ m, jsonParse f = some (.obj m) →
      (findKey m "type").getD .null ≠ .str "tools/list" →
      (findKey m "type").getD .null ≠ .str "tools/call" →
      wsStep fs f = .ignore)
    ∧ (wsStep fs f = .ignore → ∀ rest, wsRun fs (f :: rest) = wsRun fs rest)
    ∧ (wsStep fs f = .close ↔ wsCloseFrame f = true) := by
  refine ⟨?_, ?_, ?_⟩
  · intro m hp hl hc
    rw [wsStep, hp]
    simp only [wsHandleMsg]
    rw [if_neg hl, if_neg hc]
  · intro hi rest
    simp only [wsRun, hi]
  · constructor
    · intro hc
      rw [wsStep] at hc
      cases hp : jsonParse f with
      | none => simp [wsCloseFrame, hp]
      | some v =>
        rw [hp] at hc
        cases v with
        | obj m =>
          simp only [wsHandleMsg] at hc
          by_cases hl : (findKey m "type").getD .null = .str "tools/list"
          · rw [if_pos hl] at hc
            exact WsOut.noConfusion hc
          · rw [if_neg hl] at hc
            by_cases hcall : (findKey m "type").getD .null = .str "tools/call"
            · rw [if_pos hcall] at hc
              rw [wsCallResponse] at hc
              cases hpv : (findKey m "params").getD (.obj []) with
              | obj pf => rw [hpv] at hc; exact WsOut.noConfusion hc
              | null => simp [wsCloseFrame, hp, hcall, hpv]
              | bool b => simp [wsCloseFrame, hp, hcall, hpv]
              | num q => simp [wsCloseFrame, hp, hcall, hpv]
              | str s => simp [wsCloseFrame, hp, hcall, hpv]
              | arr xs => simp [wsCloseFrame, hp, hcall, hpv]
            · rw [if_neg hcall] at hc
              exact WsOut.noConfusion hc
        | null => simp [wsCloseFrame, hp]
        | bool b => simp [wsCloseFrame, hp]
        | num q => simp [wsCloseFrame, hp]
        | str s => simp [wsCloseFrame, hp]
        | arr xs => simp [wsCloseFrame, hp]
    · intro hc
      rw [wsCloseFrame] at hc
      cases hp : jsonParse f with
      | none => simp [wsStep, hp]
      | some v =>
        rw [hp] at hc
        cases v with
        | obj m =>
          simp only [Bool.and_eq_true, decide_eq_true_eq] at hc
          obtain ⟨hcall, hpv⟩ := hc
          rw [wsStep, hp]
          simp only [wsHandleMsg]
          rw [if_neg (by rw [hcall]; simp), if_pos hcall]
          rw [wsCallResponse]
          cases hv : (findKey m "params").getD (.obj []) with
          | obj pf => rw [hv] at hpv; simp at hpv
          | null => rfl
          | bool b => rfl
          | num q => rfl
          | str s => rfl
          | arr xs => rfl
        | null => simp [wsStep, hp, wsHandleMsg]
        | bool b => simp [wsStep, hp, wsHandleMsg]
        | num q => simp [wsStep, hp, wsHandleMsg]
        | str s => simp [wsStep, hp, wsHandleMsg]
        | arr xs => simp [wsStep, hp, wsHandleMsg]

/-- Witness for the C10 amendment: an object frame of unknown type `ping` is
ignored and a one-frame session emits nothing while staying open. -/
theorem c10_silent_ignore_amended_witness :
    wsStep (fun _ => none) (jsonDumps (.obj [("type", .str "ping")])) = .ignore
      ∧ wsRun (fun _ => none) [jsonDumps (.obj [("type", .str "ping")])] = ([], true) := by
  have h := c10_silent_ignore_amended (fun _ => none) (jsonDumps (.obj [("type", .str "ping")]))
  have hi := h.1 [("type", .str "ping")] (by decide) (by decide) (by decide)
  refine ⟨hi, ?_⟩
  rw [h.2.1 hi []]
  rfl

/-! ### Round-trip correctness of the JSON wire format

These lemmas culminate in `jsonParse_jsonDumps`: decoding a serialised
canonical value recovers it exactly — the `json.loads`/`json.dumps` inverse
underlying claim C1. -/

theorem digitVal_digitChar {d : Nat} (h : d < 10) : digitVal (digitChar d) = d := by
  interval_cases d <;> decide

theorem isDigitC_digitChar {d : Nat} (h : d < 10) : isDigitC (digitChar d) = true := by
  interval_cases d <;> decide

theorem digitsVal_foldl_shift : ∀ (ys : List Char) (a : Nat),
    ys.foldl (fun acc c => 10 * acc + digitVal c) a
      = a * 10 ^ ys.length + ys.foldl (fun acc c => 10 * acc + digitVal c) 0 := by
  intro ys
  induction ys with
  | nil => intro a; simp
  | cons y ys ih =>
    intro a
    rw [List.foldl_cons, List.foldl_cons, ih (10 * a + digitVal y), ih (10 * 0 + digitVal y)]
    rw [List.length_cons, pow_succ]
    ring

theorem digitsVal_append (xs ys : List Char) :
    digitsVal (xs ++ ys) = digitsVal xs * 10 ^ ys.length + digitsVal ys := by
  rw [digitsVal, digitsVal, digitsVal, List.foldl_append, digitsVal_foldl_shift]

theorem digitsVal_replicate_zero (k : Nat) (ds : List Char) :
    digitsVal (List.replicate k '0' ++ ds) = digitsVal ds := by
  rw [digitsVal_append]
  have hz : digitsVal (List.replicate k '0') = 0 := by
    induction k with
    | zero => rfl
    | succ k ih =>
      rw [List.replicate_succ, digitsVal, List.foldl_cons]
      have : (10 * 0 + digitVal '0') = 0 := by decide
      rw [this]
      exact ih
  rw [hz]
  ring

theorem natCharsAux_spec : ∀ fuel n, n < fuel →
    (∀ c ∈ natCharsAux fuel n, isDigitC c = true)
      ∧ natCharsAux fuel n ≠ []
      ∧ digitsVal (natCharsAux fuel n) = n := by
  intro fuel
  induction fuel with
  | zero => intro n hn; omega
  | succ fuel ih =>
    intro n hn
    by_cases h10 : n < 10
    · rw [natCharsAux, if_pos h10]
      refine ⟨?_, by simp, ?_⟩
      · intro c hc
        simp only [List.mem_singleton] at hc
        subst hc
        exact isDigitC_digitChar h10
      · rw [digitsVal, List.foldl_cons, List.foldl_nil, digitVal_digitChar h10]
        omega
    · rw [natCharsAux, if_neg h10]
      have hrec : n / 10 < fuel := by
        have := Nat.div_lt_self (by omega : 0 < n) (by omega : 1 < 10)
        omega
      obtain ⟨hd, hne, hv⟩ := ih (n / 10) hrec
      refine ⟨?_, by simp, ?_⟩
      · intro c hc
        rw [List.mem_append] at hc
        rcases hc with hc | hc
        · exact hd c hc
        · simp only [List.mem_singleton] at hc
          subst hc
          exact isDigitC_digitChar (Nat.mod_lt _ (by omega))
      · rw [digitsVal_append, hv]
        simp only [List.length_singleton, pow_one, digitsVal, List.foldl_cons, List.foldl_nil]
        rw [digitVal_digitChar (Nat.mod_lt _ (by omega))]
        omega

theorem natChars_spec (n : Nat) :
    (∀ c ∈ natChars n, isDigitC c = true)
      ∧ natChars n ≠ []
      ∧ digitsVal (natChars n) = n :=
  natCharsAux_spec (n + 1) n (by omega)

theorem natCharsAux_length_le : ∀ fuel n k, n < fuel → n < 10 ^ k → 1 ≤ k →
    (natCharsAux fuel n).length ≤ k := by
  intro fuel
  induction fuel with
  | zero => intro n k hn; omega
  | succ fuel ih =>
    intro n k hn hk h1
    by_cases h10 : n < 10
    · rw [natCharsAux, if_pos h10]
      simpa using h1
    · rw [natCharsAux, if_neg h10]
      rw [List.length_append, List.length_singleton]
      have hrec : n / 10 < fuel := by
        have := Nat.div_lt_self (by omega : 0 < n) (by omega : 1 < 10)
        omega
      have hk2 : 2 ≤ k := by
        by_contra hlt
        have hk1 : k = 1 := by omega
        subst hk1
        simp [pow_one] at hk
        omega
      have hdivk : n / 10 < 10 ^ (k - 1) := by
        have h2 : n < 10 ^ k := hk
        have h3 : 10 ^ k = 10 ^ (k - 1) * 10 := by
          conv_lhs => rw [show k = (k - 1) + 1 by omega]
          rw [pow_succ]
        rw [h3] at h2
        omega
      have := ih (n / 10) (k - 1) hrec hdivk (by omega)
      omega

theorem natChars_length_le {n k : Nat} (hk : n < 10 ^ k) (h1 : 1 ≤ k) :
    (natChars n).length ≤ k :=
  natCharsAux_length_le (n + 1) n k (by omega) hk h1

/-- The head of the remaining input is not a digit (and the input may be
empty). -/
def noDigitHead : List Char → Prop
  | [] => True
  | c :: _ => isDigitC c = false

theorem takeDigits_append {ds rest : List Char}
    (hds : ∀ c ∈ ds, isDigitC c = true) (hr : noDigitHead rest) :
    takeDigits (ds ++ rest) = (ds, rest) := by
  induction ds with
  | nil =>
    cases rest with
    | nil => rfl
    | cons c t =>
      rw [List.nil_append, takeDigits]
      rw [noDigitHead] at hr
      rw [hr]
      simp
  | cons d ds ih =>
    rw [List.cons_append, takeDigits]
    rw [hds d (by simp)]
    rw [ih (fun c hc => hds c (by simp [hc]))]
    simp

/-- The remaining input after a serialised number: its head (if any) is
neither a digit nor a decimal point, so maximal-munch number parsing stops
exactly at the boundary. -/
def numRestOk : List Char → Prop
  | [] => True
  | c :: _ => isDigitC c = false ∧ c ≠ '.'

theorem numRestOk_noDigitHead {rest : List Char} (h : numRestOk rest) : noDigitHead rest := by
  cases rest with
  | nil => trivial
  | cons c t => exact h.1

theorem digit_ne_minus {c : Char} (h : isDigitC c = true) : ¬ c = '-' := by
  intro he
  subst he
  exact absurd h (by decide)

theorem divInt_natAbs_int {q : Rat} (hden : q.den = 1) :
    Rat.divInt (intOfParts (decide (q.num < 0)) q.num.natAbs) 1 = q := by
  rw [intOfParts]
  by_cases hneg : q.num < 0
  · rw [if_pos (by simp [hneg])]
    rw [Int.ofNat_natAbs_of_nonpos (le_of_lt hneg), neg_neg]
    conv_rhs => rw [← Rat.num_divInt_den q, hden]
    norm_num
  · rw [if_neg (by simp [hneg])]
    rw [Int.natAbs_of_nonneg (by omega)]
    conv_rhs => rw [← Rat.num_divInt_den q, hden]
    norm_num

theorem divInt_frac {q : Rat} (hden : q.den ≠ 1) (hdvd : E17 % q.den = 0) :
    Rat.divInt (intOfParts (decide (q.num < 0))
        (q.num.natAbs * E17 / q.den / E17 * 10 ^ 17 + q.num.natAbs * E17 / q.den % E17))
      (10 ^ 17) = q := by
  have hd : q.den ∣ E17 := Nat.dvd_of_mod_eq_zero hdvd
  have hk : q.den * (E17 / q.den) = E17 := Nat.mul_div_cancel' hd
  have hE17pos : 0 < E17 := by rw [E17]; positivity
  have hkpos : 0 < E17 / q.den :=
    Nat.div_pos (Nat.le_of_dvd hE17pos hd) (Nat.pos_of_ne_zero q.den_nz)
  have hn : q.num.natAbs * E17 / q.den = q.num.natAbs * (E17 / q.den) :=
    Nat.mul_div_assoc _ hd
  have hmod : q.num.natAbs * E17 / q.den / E17 * 10 ^ 17 + q.num.natAbs * E17 / q.den % E17
      = q.num.natAbs * (E17 / q.den) := by
    rw [hn]
    have h10 : (10 : Nat) ^ 17 = E17 := rfl
    rw [h10]
    have h1 := Nat.div_add_mod (q.num.natAbs * (E17 / q.den)) E17
    rw [Nat.mul_comm E17 (q.num.natAbs * (E17 / q.den) / E17)] at h1
    omega
  rw [hmod, intOfParts]
  have hE : ((10 : Int) ^ 17) = ((q.den : Int) * ((E17 / q.den : Nat) : Int)) := by
    rw [← Nat.cast_mul, hk, show (E17 : Nat) = 10 ^ 17 from rfl]
    push_cast
    try ring
  have hkne : ((E17 / q.den : Nat) : Int) ≠ 0 := by exact_mod_cast hkpos.ne'
  by_cases hneg : q.num < 0
  · rw [if_pos (by simp [hneg])]
    have hv : -(((q.num.natAbs * (E17 / q.den) : Nat)) : Int)
        = q.num * ((E17 / q.den : Nat) : Int) := by
      push_cast
      rw [abs_of_nonpos (le_of_lt hneg)]
      ring
    rw [hv, hE, Rat.divInt_mul_right hkne]
    exact Rat.num_divInt_den q
  · rw [if_neg (by simp [hneg])]
    have hv : (((q.num.natAbs * (E17 / q.den) : Nat)) : Int)
        = q.num * ((E17 / q.den : Nat) : Int) := by
      push_cast
      rw [abs_of_nonneg (by omega : (0:Int) ≤ q.num)]
    rw [hv, hE, Rat.divInt_mul_right hkne]
    exact Rat.num_divInt_den q

theorem parseNumBody_int {neg : Bool} {ds rest : List Char}
    (hdig : ∀ c ∈ ds, isDigitC c = true) (hne : ds ≠ [])
    (hrest : numRestOk rest) :
    parseNumBody neg (ds ++ rest)
      = some (.num (Rat.divInt (intOfParts neg (digitsVal ds)) 1), rest) := by
  rw [parseNumBody, takeDigits_append hdig (numRestOk_noDigitHead hrest)]
  obtain ⟨c0, cs0, hc0⟩ := List.exists_cons_of_ne_nil hne
  subst hc0
  cases rest with
  | nil => rfl
  | cons c t =>
    rw [numRestOk] at hrest
    simp only [if_neg hrest.2]

theorem parseNumBody_frac {neg : Bool} {ds fds rest : List Char}
    (hdig : ∀ c ∈ ds, isDigitC c = true) (hne : ds ≠ [])
    (hfdig : ∀ c ∈ fds, isDigitC c = true) (hfne : fds ≠ [])
    (hrest : numRestOk rest) :
    parseNumBody neg (ds ++ '.' :: (fds ++ rest))
      = some (.num (Rat.divInt
          (intOfParts neg (digitsVal ds * 10 ^ fds.length + digitsVal fds))
          (10 ^ fds.length)), rest) := by
  rw [parseNumBody, takeDigits_append hdig (by rw [noDigitHead]; decide)]
  obtain ⟨c0, cs0, hc0⟩ := List.exists_cons_of_ne_nil hne
  subst hc0
  simp only [if_pos rfl]
  rw [takeDigits_append hfdig (numRestOk_noDigitHead hrest)]
  obtain ⟨f0, fs0, hf0⟩ := List.exists_cons_of_ne_nil hfne
  subst hf0
  rfl

theorem parseNum_numChars (q : Rat) (hq : q.den = 1 ∨ E17 % q.den = 0)
    (rest : List Char) (hrest : numRestOk rest) :
    parseNum (numChars q ++ rest) = some (.num q, rest) := by
  by_cases hden : q.den = 1
  · obtain ⟨hdig, hne, hval⟩ := natChars_spec q.num.natAbs
    rw [numChars, if_pos hden, intChars]
    by_cases hneg : q.num < 0
    · rw [if_pos hneg, List.cons_append, parseNum, if_pos rfl,
        parseNumBody_int hdig hne hrest, hval]
      rw [show (true : Bool) = decide (q.num < 0) from (by simp [hneg])]
      rw [divInt_natAbs_int hden]
    · rw [if_neg hneg]
      obtain ⟨c0, cs0, hc0⟩ := List.exists_cons_of_ne_nil hne
      rw [hc0, List.cons_append, parseNum]
      rw [if_neg (digit_ne_minus (hdig c0 (by rw [hc0]; simp)))]
      rw [← List.cons_append, ← hc0, parseNumBody_int hdig hne hrest, hval]
      rw [show (false : Bool) = decide (q.num < 0) from (by simp [hneg])]
      rw [divInt_natAbs_int hden]
  · have hdvd : E17 % q.den = 0 := hq.resolve_left hden
    have hE17pos : 0 < E17 := by rw [E17]; positivity
    obtain ⟨hdig1, hne1, hval1⟩ := natChars_spec (q.num.natAbs * E17 / q.den / E17)
    obtain ⟨hdig2, hne2, hval2⟩ := natChars_spec (q.num.natAbs * E17 / q.den % E17)
    have hmodlt : q.num.natAbs * E17 / q.den % E17 < 10 ^ 17 :=
      Nat.mod_lt _ hE17pos
    have hlen : (natChars (q.num.natAbs * E17 / q.den % E17)).length ≤ 17 :=
      natChars_length_le hmodlt (by omega)
    have hfdig : ∀ c ∈ List.replicate
        (17 - (natChars (q.num.natAbs * E17 / q.den % E17)).length) '0'
        ++ natChars (q.num.natAbs * E17 / q.den % E17), isDigitC c = true := by
      intro c hc
      rw [List.mem_append] at hc
      rcases hc with hc | hc
      · rw [List.eq_of_mem_replicate hc]
        decide
      · exact hdig2 c hc
    have hfne : List.replicate
        (17 - (natChars (q.num.natAbs * E17 / q.den % E17)).length) '0'
        ++ natChars (q.num.natAbs * E17 / q.den % E17) ≠ [] := by
      intro hn
      exact hne2 (List.append_eq_nil.mp hn).2
    have hflen : (List.replicate
        (17 - (natChars (q.num.natAbs * E17 / q.den % E17)).length) '0'
        ++ natChars (q.num.natAbs * E17 / q.den % E17)).length = 17 := by
      rw [List.length_append, List.length_replicate]
      omega
    have hfval : digitsVal (List.replicate
        (17 - (natChars (q.num.natAbs * E17 / q.den % E17)).length) '0'
        ++ natChars (q.num.natAbs * E17 / q.den % E17))
        = q.num.natAbs * E17 / q.den % E17 := by
      rw [digitsVal_replicate_zero, hval2]
    rw [numChars, if_neg hden]
    simp only [List.append_assoc, List.cons_append, List.nil_append]
    by_cases hneg : q.num < 0
    · rw [if_pos hneg]
      simp only [List.cons_append, List.nil_append]
      rw [parseNum, if_pos rfl]
      rw [show List.replicate (17 - (natChars (q.num.natAbs * E17 / q.den % E17)).length) '0'
          ++ (natChars (q.num.natAbs * E17 / q.den % E17) ++ rest)
          = (List.replicate (17 - (natChars (q.num.natAbs * E17 / q.den % E17)).length) '0'
          ++ natChars (q.num.natAbs * E17 / q.den % E17)) ++ rest
        from (List.append_assoc _ _ _).symm]
      rw [parseNumBody_frac hdig1 hne1 hfdig hfne hrest]
      rw [hval1, hfval, hflen]
      rw [show (true : Bool) = decide (q.num < 0) from (by simp [hneg])]
      rw [divInt_frac hden hdvd]
    · rw [if_neg hneg]
      simp only [List.nil_append]
      obtain ⟨c0, cs0, hc0⟩ := List.exists_cons_of_ne_nil hne1
      rw [hc0, List.cons_append, parseNum]
      rw [if_neg (digit_ne_minus (hdig1 c0 (by rw [hc0]; simp)))]
      rw [← List.cons_append, ← hc0]
      rw [show List.replicate (17 - (natChars (q.num.natAbs * E17 / q.den % E17)).length) '0'
          ++ (natChars (q.num.natAbs * E17 / q.den % E17) ++ rest)
          = (List.replicate (17 - (natChars (q.num.natAbs * E17 / q.den % E17)).length) '0'
          ++ natChars (q.num.natAbs * E17 / q.den % E17)) ++ rest
        from (List.append_assoc _ _ _).symm]
      rw [parseNumBody_frac hdig1 hne1 hfdig hfne hrest]
      rw [hval1, hfval, hflen]
      rw [show (false : Bool) = decide (q.num < 0) from (by simp [hneg])]
      rw [divInt_frac hden hdvd]

theorem parseStrChars_esc (cs rest : List Char) :
    parseStrChars (escChars cs ++ (qChar :: rest)) = some (cs, rest) := by
  induction cs with
  | nil =>
    rw [escChars, List.nil_append, parseStrChars.eq_def]
    simp
  | cons c cs ih =>
    rw [escChars, escChar]
    by_cases hc : c = qChar ∨ c = bsChar
    · rw [if_pos hc]
      simp only [List.cons_append, List.append_assoc, List.nil_append]
      rw [parseStrChars.eq_def]
      simp only [if_neg (show ¬ bsChar = qChar by decide), if_pos (rfl : bsChar = bsChar),
        if_true, ih]
    · rw [if_neg hc]
      push_neg at hc
      simp only [List.cons_append, List.nil_append]
      rw [parseStrChars.eq_def]
      simp only [if_neg hc.1, if_neg hc.2, ih]

theorem natChars_head (n : Nat) :
    ∃ c t, natChars n = c :: t ∧ isDigitC c = true := by
  obtain ⟨hdig, hne, _⟩ := natChars_spec n
  obtain ⟨c, t, hct⟩ := List.exists_cons_of_ne_nil hne
  exact ⟨c, t, hct, hdig c (by rw [hct]; simp)⟩

theorem numChars_head (q : Rat) :
    ∃ c t, numChars q = c :: t ∧ (c = '-' ∨ isDigitC c = true) := by
  rw [numChars]
  by_cases hden : q.den = 1
  · rw [if_pos hden, intChars]
    by_cases hneg : q.num < 0
    · rw [if_pos hneg]
      exact ⟨'-', _, rfl, Or.inl rfl⟩
    · rw [if_neg hneg]
      obtain ⟨c, t, hct, hd⟩ := natChars_head q.num.natAbs
      exact ⟨c, t, hct, Or.inr hd⟩
  · rw [if_neg hden]
    by_cases hneg : q.num < 0
    · rw [if_pos hneg]
      exact ⟨'-', _, rfl, Or.inl rfl⟩
    · rw [if_neg hneg]
      simp only [List.nil_append]
      obtain ⟨c, t, hct, hd⟩ := natChars_head (q.num.natAbs * E17 / q.den / E17)
      rw [hct, List.cons_append, List.cons_append]
      exact ⟨c, _, rfl, Or.inr hd⟩

/-- Every serialised value starts with a character other than a closing
bracket (what the array-element loop needs to distinguish `[]`). -/
theorem printV_head (v : JVal) : ∃ c t, printV v = c :: t ∧ c ≠ ']' := by
  cases v with
  | null => exact ⟨'n', _, rfl, by decide⟩
  | bool b => cases b with
    | true => exact ⟨'t', _, rfl, by decide⟩
    | false => exact ⟨'f', _, rfl, by decide⟩
  | num q =>
    obtain ⟨c, t, hct, hd⟩ := numChars_head q
    refine ⟨c, t, by rw [printV, hct], ?_⟩
    rcases hd with hd | hd
    · subst hd; decide
    · intro he
      subst he
      exact absurd hd (by decide)
  | str s => exact ⟨qChar, _, rfl, by decide⟩
  | arr xs => exact ⟨'[', _, rfl, by decide⟩
  | obj fs => exact ⟨lbrace, _, rfl, by decide⟩

theorem num_head_cases {c : Char} (hd : c = '-' ∨ isDigitC c = true) :
    ¬ c = 'n' ∧ ¬ c = 't' ∧ ¬ c = 'f' ∧ ¬ c = qChar ∧ ¬ c = '[' ∧ ¬ c = lbrace := by
  rcases hd with hd | hd
  · subst hd
    refine ⟨by decide, by decide, by decide, by decide, by decide, by decide⟩
  · refine ⟨?_, ?_, ?_, ?_, ?_, ?_⟩ <;> intro he <;> subst he <;> exact absurd hd (by decide)

theorem printElems_cons_cons (x y : JVal) (ys : List JVal) :
    printElems (x :: y :: ys) = printV x ++ (',' :: printElems (y :: ys)) := rfl

theorem printFields_cons_cons (k : String) (v : JVal) (kv2 : String × JVal)
    (fls : List (String × JVal)) :
    printFields ((k, v) :: kv2 :: fls) =
      (qChar :: (escChars k.data ++ [qChar])) ++ (':' :: printV v)
        ++ (',' :: printFields (kv2 :: fls)) := rfl

theorem parse_printV : ∀ fuel : Nat,
    (∀ v rest, (printV v).length < fuel → canonV v = true → numRestOk rest →
      parseV fuel (printV v ++ rest) = some (v, rest))
    ∧ (∀ xs rest, xs ≠ [] → (printElems xs).length + 1 < fuel → canonL xs = true →
      parseElems fuel (printElems xs ++ (']' :: rest)) = some (xs, rest))
    ∧ (∀ fls rest, fls ≠ [] → (printFields fls).length + 1 < fuel → canonFL fls = true →
      parseFields fuel (printFields fls ++ (rbrace :: rest)) = some (fls, rest)) := by
  intro fuel
  induction fuel with
  | zero =>
    refine ⟨fun v rest hf => ?_, fun xs rest hn hf => ?_, fun fls rest hn hf => ?_⟩ <;> omega
  | succ fuel ih =>
    obtain ⟨ihV, ihE, ihF⟩ := ih
    refine ⟨?_, ?_, ?_⟩
    · intro v rest hfuel hcanon hrest
      cases v with
      | null =>
        rw [printV]
        simp [parseV, expectChars]
      | bool b =>
        cases b with
        | true => rw [printV]; simp [parseV, expectChars]
        | false => rw [printV]; simp [parseV, expectChars]
      | num q =>
        obtain ⟨c, t, hct, hd⟩ := numChars_head q
        obtain ⟨hn1, hn2, hn3, hn4, hn5, hn6⟩ := num_head_cases hd
        have hq : q.den = 1 ∨ E17 % q.den = 0 := by
          rw [canonV] at hcanon
          simp only [Bool.or_eq_true, decide_eq_true_eq] at hcanon
          rcases hcanon with hcanon | hcanon
          · exact Or.inl (by exact_mod_cast hcanon)
          · exact Or.inr (by exact_mod_cast hcanon)
        rw [printV, hct, List.cons_append, parseV.eq_def]
        simp only [if_neg hn1, if_neg hn2, if_neg hn3, if_neg hn4, if_neg hn5, if_neg hn6]
        rw [if_pos (by rcases hd with hd | hd; exact Or.inl hd; exact Or.inr hd)]
        rw [← List.cons_append, ← hct]
        exact parseNum_numChars q hq rest hrest
      | str s =>
        rw [printV]
        simp only [List.cons_append, List.append_assoc, List.singleton_append]
        rw [parseV.eq_def]
        simp only [if_neg (show ¬ qChar = 'n' by decide), if_neg (show ¬ qChar = 't' by decide),
          if_neg (show ¬ qChar = 'f' by decide), if_pos (rfl : qChar = qChar), if_true,
          parseStrChars_esc]
        rfl
      | arr xs =>
        cases xs with
        | nil =>
          rw [printV, printElems]
          simp only [List.nil_append, List.cons_append]
          rw [parseV.eq_def]
          simp only [if_neg (show ¬ '[' = 'n' by decide), if_neg (show ¬ '[' = 't' by decide),
            if_neg (show ¬ '[' = 'f' by decide), if_neg (show ¬ '[' = qChar by decide),
            if_pos (rfl : '[' = '['), if_true, List.head?_cons, List.tail_cons]
        | cons x xs' =>
          obtain ⟨c, t, hct, hcn⟩ := printV_head x
          have hpe : ∃ T, printElems (x :: xs') = c :: T := by
            cases xs' with
            | nil => exact ⟨t, by rw [printElems, hct]⟩
            | cons y ys =>
              refine ⟨t ++ (',' :: printElems (y :: ys)), ?_⟩
              rw [printElems_cons_cons, hct, List.cons_append]
          obtain ⟨T, hT⟩ := hpe
          have hbound : (printElems (x :: xs')).length + 1 < fuel := by
            rw [printV] at hfuel
            simp only [List.length_cons, List.length_append, List.length_singleton] at hfuel
            omega
          have hcl : canonL (x :: xs') = true := by
            rw [canonV] at hcanon
            exact hcanon
          rw [printV, hT]
          simp only [List.cons_append, List.append_assoc, List.singleton_append,
            List.nil_append]
          rw [parseV.eq_def]
          simp only [if_neg (show ¬ '[' = 'n' by decide), if_neg (show ¬ '[' = 't' by decide),
            if_neg (show ¬ '[' = 'f' by decide), if_neg (show ¬ '[' = qChar by decide),
            if_pos (rfl : '[' = '['), if_true, List.head?_cons, Option.some.injEq]
          rw [if_neg hcn]
          have hre : c :: (T ++ (']' :: rest)) = printElems (x :: xs') ++ (']' :: rest) := by
            rw [hT, List.cons_append]
          rw [hre, ihE (x :: xs') rest (by simp) hbound hcl]
      | obj fls =>
        cases fls with
        | nil =>
          rw [printV, printFields]
          simp only [List.nil_append, List.cons_append]
          rw [parseV.eq_def]
          simp only [if_neg (show ¬ lbrace = 'n' by decide),
            if_neg (show ¬ lbrace = 't' by decide), if_neg (show ¬ lbrace = 'f' by decide),
            if_neg (show ¬ lbrace = qChar by decide), if_neg (show ¬ lbrace = '[' by decide),
            if_pos (rfl : lbrace = lbrace), if_true, List.head?_cons, List.tail_cons]
        | cons kv fls' =>
          have hpf : ∃ T, printFields (kv :: fls') = qChar :: T := by
            obtain ⟨k, v⟩ := kv
            cases fls' with
            | nil => exact ⟨_, by rw [printFields, List.cons_append]⟩
            | cons kv2 fls'' => exact ⟨_, by rw [printFields_cons_cons, List.cons_append,
                List.cons_append]⟩
          obtain ⟨T, hT⟩ := hpf
          have hbound : (printFields (kv :: fls')).length + 1 < fuel := by
            rw [printV] at hfuel
            simp only [List.length_cons, List.length_append, List.length_singleton] at hfuel
            omega
          have hcf : canonFL (kv :: fls') = true := by
            rw [canonV] at hcanon
            exact hcanon
          rw [printV, hT]
          simp only [List.cons_append, List.append_assoc, List.singleton_append,
            List.nil_append]
          rw [parseV.eq_def]
          simp only [if_neg (show ¬ lbrace = 'n' by decide),
            if_neg (show ¬ lbrace = 't' by decide), if_neg (show ¬ lbrace = 'f' by decide),
            if_neg (show ¬ lbrace = qChar by decide), if_neg (show ¬ lbrace = '[' by decide),
            if_pos (rfl : lbrace = lbrace), if_true, List.head?_cons, Option.some.injEq,
            if_neg (show ¬ qChar = rbrace by decide)]
          have hre : qChar :: (T ++ (rbrace :: rest)) = printFields (kv :: fls') ++ (rbrace :: rest) := by
            rw [hT, List.cons_append]
          rw [hre, ihF (kv :: fls') rest (by simp) hbound hcf]
    · intro xs rest hne hfuel hcanon
      cases xs with
      | nil => exact absurd rfl hne
      | cons x xs' =>
        have hcx : canonV x = true ∧ canonL xs' = true := by
          rw [canonL, Bool.and_eq_true] at hcanon
          exact hcanon
        cases xs' with
        | nil =>
          rw [printElems, parseElems]
          have hbx : (printV x).length < fuel := by
            rw [printElems] at hfuel
            omega
          rw [ihV x (']' :: rest) hbx hcx.1 (by exact ⟨by decide, by decide⟩)]
          simp
        | cons y ys =>
          rw [printElems_cons_cons, parseElems]
          simp only [List.cons_append, List.append_assoc]
          have hbx : (printV x).length < fuel := by
            rw [printElems_cons_cons] at hfuel
            simp only [List.length_append, List.length_cons] at hfuel
            omega
          rw [ihV x (',' :: (printElems (y :: ys) ++ (']' :: rest))) hbx hcx.1
            (by exact ⟨by decide, by decide⟩)]
          have hbe : (printElems (y :: ys)).length + 1 < fuel := by
            rw [printElems_cons_cons] at hfuel
            simp only [List.length_append, List.length_cons] at hfuel
            omega
          simp only [List.head?_cons, List.tail_cons,
            ihE (y :: ys) rest (by simp) hbe hcx.2]
          simp
    · intro fls rest hne hfuel hcanon
      cases fls with
      | nil => exact absurd rfl hne
      | cons kv fls' =>
        obtain ⟨k, v⟩ := kv
        have hck : canonV v = true ∧ canonFL fls' = true := by
          rw [canonFL, Bool.and_eq_true] at hcanon
          exact hcanon
        cases fls' with
        | nil =>
          rw [printFields]
          simp only [List.cons_append, List.append_assoc, List.singleton_append,
            List.nil_append]
          rw [parseFields.eq_def]
          have hbv : (printV v).length < fuel := by
            rw [printFields] at hfuel
            simp only [List.length_append, List.length_cons, List.length_singleton] at hfuel
            omega
          have hv := ihV v (rbrace :: rest) hbv hck.1 (by exact ⟨by decide, by decide⟩)
          simp only [if_pos (rfl : qChar = qChar), parseStrChars_esc, List.head?_cons,
            List.tail_cons, List.nil_append]
          rw [hv]
          simp
          intro h
          exact absurd h (by decide)
        | cons kv2 fls'' =>
          rw [printFields_cons_cons]
          simp only [List.cons_append, List.append_assoc, List.singleton_append,
            List.nil_append]
          rw [parseFields.eq_def]
          have hbv : (printV v).length < fuel := by
            rw [printFields_cons_cons] at hfuel
            simp only [List.length_append, List.length_cons, List.length_singleton] at hfuel
            omega
          have hbf : (printFields (kv2 :: fls'')).length + 1 < fuel := by
            rw [printFields_cons_cons] at hfuel
            simp only [List.length_append, List.length_cons, List.length_singleton] at hfuel
            omega
          have hv := ihV v (',' :: (printFields (kv2 :: fls'') ++ (rbrace :: rest))) hbv hck.1
            (by exact ⟨by decide, by decide⟩)
          have hf := ihF (kv2 :: fls'') rest (by simp) hbf hck.2
          simp only [if_pos (rfl : qChar = qChar), parseStrChars_esc, List.head?_cons,
            List.tail_cons, List.nil_append]
          rw [hv]
          simp [hf]

/- jsonDumps/jsonParse roundtrip on canonical values: decoding the printed text
recovers the value exactly. -/
theorem jsonParse_jsonDumps (v : JVal) (h : canonV v = true) :
    jsonParse (jsonDumps v) = some v := by
  have hp := (parse_printV ((printV v).length + 1)).1 v [] (Nat.lt_succ_self _) h trivial
  rw [List.append_nil] at hp
  have hd : (jsonDumps v).data = printV v := rfl
  rw [jsonParse, hd, hp]

/-- C1: transport equivalence round-trip. For every dispatch input
`(name, arguments)` whose dispatch outcome prints canonically (integer or
17-fractional-digit-exact numbers, as Python prints every value produced by
this server), the WebSocket `tools/call` handler replies with a frame whose
`result.content[0].text` is exactly the JSON serialization of the dispatch
outcome, decoding that embedded text recovers the very same structured object,
and the HTTP adapter returns that same object under its `result` key — the two
transports are observably equivalent for the same `(name, arguments)` pair. -/
theorem c1_transport_roundtrip (fs : FileSystem) (rid : JVal) (name : String)
    (args : List (String × JVal))
    (hcanon : canonV (handle_tool_call fs (.str name) (.obj args)) = true) :
    wsHandleMsg fs (.obj [("type", .str "tools/call"), ("request_id", rid),
        ("params", .obj [("name", .str name), ("arguments", .obj args)])])
      = .reply (.obj [
          ("type", .str "tools/call"),
          ("request_id", rid),
          ("result", .obj [("content", .arr [.obj [
            ("type", .str "text"),
            ("text", .str (jsonDumps (handle_tool_call fs (.str name) (.obj args))))]])])])
    ∧ jsonParse (jsonDumps (handle_tool_call fs (.str name) (.obj args)))
        = some (handle_tool_call fs (.str name) (.obj args))
    ∧ call_tool fs name args
        = .obj [("result", handle_tool_call fs (.str name) (.obj args))] :=
  ⟨rfl, jsonParse_jsonDumps _ hcanon, rfl⟩

/-- Witness for C1 at a concrete input: the zero-data filesystem and the
`get_revenue_summary` tool, whose dispatch outcome is canonical. -/
theorem c1_transport_roundtrip_witness :
    canonV (handle_tool_call (fun _ => none) (.str "get_revenue_summary") (.obj [])) = true
    ∧ (wsHandleMsg (fun _ => none) (.obj [("type", .str "tools/call"),
          ("request_id", .str "42"),
          ("params", .obj [("name", .str "get_revenue_summary"),
            ("arguments", .obj [])])])
        = .reply (.obj [
            ("type", .str "tools/call"),
            ("request_id", .str "42"),
            ("result", .obj [("content", .arr [.obj [
              ("type", .str "text"),
              ("text", .str (jsonDumps (handle_tool_call (fun _ => none)
                (.str "get_revenue_summary") (.obj []))))]])])])
      ∧ jsonParse (jsonDumps (handle_tool_call (fun _ => none)
            (.str "get_revenue_summary") (.obj [])))
          = some (handle_tool_call (fun _ => none) (.str "get_revenue_summary") (.obj []))
      ∧ call_tool (fun _ => none) "get_revenue_summary" []
          = .obj [("result", handle_tool_call (fun _ => none)
              (.str "get_revenue_summary") (.obj []))]) :=
  ⟨by decide, c1_transport_roundtrip (fun _ => none) (.str "42") "get_revenue_summary" []
    (by decide)⟩
